import Mathlib

/-!
Shallow embedding of the `puzzle-solvers` repository.

The grids of `puzzlegrid.py` / `puzzle/latinsquare.py` are lists of lists of
`Option Nat` (`none` is the `EMPTY_CELL` sentinel), the per-row / per-column /
per-box candidate sets are `Finset Nat`, and the Python ints that may be
mutated without bound (`_num_empty_cells`) are `Int`.  Python methods that can
raise are modelled with `Except σ σ`, the `error` branch carrying the state at
the moment the exception propagates to the caller (Python mutates in place, so
the caller observes that state).
-/

namespace PuzzleSolvers

/-- `CELL_VALUES` from `puzzlegrid.py`. -/
def CELL_VALUES : List Char := "123456789ABCDEFGHIJKLMNOP".toList

/-- `MIN_CELL_VALUE` from `puzzlegrid.py`. -/
def MIN_CELL_VALUE : Nat := 1

/-- `MAX_PUZZLE_SIZE` from `puzzlegrid.py`. -/
def MAX_PUZZLE_SIZE : Nat := 25

/-- `MIN_PUZZLE_SIZE` from `puzzlegrid.py`. -/
def MIN_PUZZLE_SIZE : Nat := 1

/-- `int2char` from `puzzlegrid.py`: `None`/`0` becomes `'.'`, value `i`
becomes `CELL_VALUES[i-1]`.  An out-of-range index would raise in Python;
it cannot occur for grid values `1..25`, we give the junk answer `'?'`. -/
def int2char (i : Option Nat) : Char :=
  match i with
  | none => '.'
  | some v => CELL_VALUES.getD (v - 1) '?'

/-- `char2int` from `puzzlegrid.py`.  Result `none` models the `ValueError`
raised by `CELL_VALUES.index` on a character that is not a cell value;
`some none` is an empty cell, `some (some v)` the value `v`. -/
def char2int (c : Char) : Option (Option Nat) :=
  if c = '.' ∨ c = '0' then some none
  else (CELL_VALUES.indexOf? c).map (fun k => some (k + 1))

/-- The row-major list of all coordinates of an `n × n` grid
(the iteration order of the nested `for` loops over `self._grid`). -/
def allCells (n : Nat) : List (Nat × Nat) :=
  (List.range n).flatMap (fun i => (List.range n).map (fun j => (i, j)))

/-- The complete value set `set(range(MIN_CELL_VALUE, grid_size + 1))`. -/
def completeSet (n : Nat) : Finset Nat := Finset.Icc 1 n

/-- State of a `ConstraintPuzzle` (`puzzlegrid.py`); the `LatinSquare` class of
`puzzle/latinsquare.py` has byte-for-byte the same `set`/`clear`/
`get_allowed_values`/`next_best_empty_cell` logic over the same fields. -/
structure CP where
  max_cell_value : Nat
  grid : List (List (Option Nat))
  num_empty_cells : Int
  allowed_values_for_row : List (Finset Nat)
  allowed_values_for_col : List (Finset Nat)
  deriving DecidableEq

namespace CP

/-- `ConstraintPuzzle.__init__` with no starting grid (after the range check
on `grid_size` has passed). -/
def fresh (n : Nat) : CP where
  max_cell_value := n
  grid := List.replicate n (List.replicate n (none : Option Nat))
  num_empty_cells := (n * n : Nat)
  allowed_values_for_row := List.replicate n (completeSet n)
  allowed_values_for_col := List.replicate n (completeSet n)

/-- `ConstraintPuzzle.get`. -/
def get (p : CP) (x y : Nat) : Option Nat :=
  (p.grid.getD x []).getD y none

/-- Write `v` into the grid matrix at `(x, y)` (the assignment
`self._grid[x][y] = v`). -/
def setCell (g : List (List (Option Nat))) (x y : Nat) (v : Option Nat) :
    List (List (Option Nat)) :=
  g.set x ((g.getD x []).set y v)

/-- Row candidate set `self._allowed_values_for_row[x]`. -/
def rowCands (p : CP) (x : Nat) : Finset Nat :=
  p.allowed_values_for_row.getD x ∅

/-- Column candidate set `self._allowed_values_for_col[y]`. -/
def colCands (p : CP) (y : Nat) : Finset Nat :=
  p.allowed_values_for_col.getD y ∅

/-- `ConstraintPuzzle.get_allowed_values`. -/
def get_allowed_values (p : CP) (x y : Nat) : Finset Nat :=
  match p.get x y with
  | some w => {w}
  | none => p.rowCands x ∩ p.colCands y

/-- `ConstraintPuzzle.is_allowed_value`. -/
def is_allowed_value (p : CP) (x y v : Nat) : Bool :=
  if v ≠ 0 ∧ p.get x y = some v then true
  else v ∈ p.get_allowed_values x y

/-- `ConstraintPuzzle.clear`. -/
def clear (p : CP) (x y : Nat) : CP :=
  match p.get x y with
  | none => p
  | some prev =>
    { p with
      grid := setCell p.grid x y none
      num_empty_cells := p.num_empty_cells + 1
      allowed_values_for_row :=
        p.allowed_values_for_row.set x (insert prev (p.rowCands x))
      allowed_values_for_col :=
        p.allowed_values_for_col.set y (insert prev (p.colCands y)) }

/-- The committed state of a successful write: store the value, decrement
the empty counter, and remove the value from the row and column candidate
sets (the last three statements of `ConstraintPuzzle.set`). -/
def writeState (p : CP) (x y v : Nat) : CP :=
  { p with
    grid := setCell p.grid x y (some v)
    num_empty_cells := p.num_empty_cells - 1
    allowed_values_for_row :=
      p.allowed_values_for_row.set x ((p.rowCands x).erase v)
    allowed_values_for_col :=
      p.allowed_values_for_col.set y ((p.colCands y).erase v) }

/-- `ConstraintPuzzle.set`.  `Except.error` carries the state observed by the
caller when the `ValueError` propagates. -/
def set (p : CP) (x y v : Nat) : Except CP CP :=
  if v < MIN_CELL_VALUE ∨ v > p.max_cell_value then .error p
  else if p.get x y = some v then .ok p
  else
    let p1 := if (p.get x y).isSome then p.clear x y else p
    if p1.is_allowed_value x y v then .ok (p1.writeState x y v)
    else .error p1

/-- `ConstraintPuzzle.num_cells`. -/
def num_cells (p : CP) : Nat := p.max_cell_value * p.max_cell_value

/-- `ConstraintPuzzle.get_row_values`. -/
def get_row_values (p : CP) (x : Nat) : List Nat :=
  (p.grid.getD x []).filterMap id

/-- `ConstraintPuzzle.get_column_values`. -/
def get_column_values (p : CP) (y : Nat) : List Nat :=
  p.grid.filterMap (fun r => r.getD y none)

/-- `ConstraintPuzzle.is_puzzle_valid`
(`len(values) != len(set(values))` detects a duplicate, i.e. `¬ Nodup`). -/
def is_puzzle_valid (p : CP) : Bool :=
  ((List.range p.max_cell_value).all fun x => (p.get_row_values x).Nodup) &&
  ((List.range p.max_cell_value).all fun y => (p.get_column_values y).Nodup)

/-- `ConstraintPuzzle.is_solved`. -/
def is_solved (p : CP) : Bool :=
  p.is_puzzle_valid && p.num_empty_cells == 0

/-- `ConstraintPuzzle.find_empty_cell`: first `(x, y)` in row-major order
whose cell is empty. -/
def find_empty_cell (p : CP) : Option (Nat × Nat) :=
  (allCells p.max_cell_value).find? (fun c => p.get c.1 c.2 = none)

/-- The full sequence of cells yielded by the
`ConstraintPuzzle.next_best_empty_cell` generator: the outer `while` runs
`max_possibilities` from `1` to `max_cell_value`, the inner scan yields every
empty cell whose allowed-value count is at most the current threshold. -/
def next_best_cells (p : CP) : List (Nat × Nat) :=
  (List.range p.max_cell_value).flatMap fun k =>
    (allCells p.max_cell_value).filter fun c =>
      p.get c.1 c.2 = none ∧ (p.get_allowed_values c.1 c.2).card ≤ k + 1

/-- `ConstraintPuzzle.clear_all`. -/
def clear_all (p : CP) : CP :=
  (allCells p.max_cell_value).foldl (fun q c => q.clear c.1 c.2) p

/-- `ConstraintPuzzle.__str__`: flat row-major string of the grid. -/
def toFlatString (p : CP) : List Char :=
  p.grid.flatMap (fun row => row.map int2char)

/-- Python `str.rstrip()` on a character list: drop trailing whitespace. -/
def rstrip (l : List Char) : List Char :=
  (l.reverse.dropWhile (fun c => c.isWhitespace)).reverse

/-- The `for i, ch in enumerate(s)` loop of
`ConstraintPuzzle.init_puzzle_from_str`: `i` is the running index, a raised
`ValueError` (from `char2int` on a bad character, or from `set`) propagates
with the current state. -/
def initStrLoop (q : CP) : Nat → List Char → Except CP CP
  | _, [] => .ok q
  | i, ch :: rest =>
    match char2int ch with
    | none => .error q
    | some none => initStrLoop q (i + 1) rest
    | some (some v) =>
      match q.set (i / q.max_cell_value) (i % q.max_cell_value) v with
      | .error q' => .error q'
      | .ok q' => initStrLoop q' (i + 1) rest

/-- `ConstraintPuzzle.init_puzzle_from_str`. -/
def init_puzzle_from_str (p : CP) (starting : List Char) : Except CP CP :=
  let s := rstrip starting
  if s.length ≠ (p.clear_all).num_cells then .error p.clear_all
  else initStrLoop p.clear_all 0 s

end CP

/-- The state observed by the caller after an operation, whether it returned
normally or raised (Python mutates in place, so both carry a state). -/
def endState {σ : Type} : Except σ σ → σ
  | .ok s => s
  | .error s => s

/-- Number of cells of the grid matrix holding the empty sentinel. -/
def countEmptyG (g : List (List (Option Nat))) : Nat :=
  (g.map (fun r => r.countP (fun o => o = none))).sum

/-- Number of empty cells actually present in the grid matrix. -/
def countEmpty (p : CP) : Nat := countEmptyG p.grid

/-- One call of the public mutating interface of a `ConstraintPuzzle`:
`set(x, y, v)` or `clear(x, y)`. -/
inductive GridOp where
  | setOp (x y v : Nat)
  | clearOp (x y : Nat)
  deriving DecidableEq

/-- Run one operation, keeping the state the caller observes even when the
call raised. -/
def applyOp (p : CP) : GridOp → CP
  | .setOp x y v => endState (p.set x y v)
  | .clearOp x y => p.clear x y

/-- Run a sequence of `set`/`clear` calls. -/
def applyOps (p : CP) (ops : List GridOp) : CP := ops.foldl applyOp p

/-- The internal consistency invariant of a `ConstraintPuzzle`.  It packages:
the grid is `n × n` and the candidate lists have one entry per row/column;
`_num_empty_cells` equals the true number of empty cells; every placed value
lies in `1..n`; no row or column repeats a value; and each row/column
candidate set equals the complete set minus the values placed in that
row/column. -/
def CP.Inv (p : CP) : Prop :=
  p.grid.length = p.max_cell_value ∧
  (∀ r ∈ p.grid, r.length = p.max_cell_value) ∧
  p.allowed_values_for_row.length = p.max_cell_value ∧
  p.allowed_values_for_col.length = p.max_cell_value ∧
  p.num_empty_cells = (countEmpty p : Int) ∧
  (∀ x < p.max_cell_value, ∀ y < p.max_cell_value, ∀ v : Nat,
    p.get x y = some v → v ∈ completeSet p.max_cell_value) ∧
  (∀ x < p.max_cell_value, (p.get_row_values x).Nodup) ∧
  (∀ y < p.max_cell_value, (p.get_column_values y).Nodup) ∧
  (∀ x < p.max_cell_value,
    p.rowCands x = completeSet p.max_cell_value \ (p.get_row_values x).toFinset) ∧
  (∀ y < p.max_cell_value,
    p.colCands y = completeSet p.max_cell_value \ (p.get_column_values y).toFinset)

instance (p : CP) : Decidable p.Inv := by
  unfold CP.Inv
  infer_instance

/-! ### SudokuPuzzle (`puzzle/sudoku.py`) -/

/-- `int(grid_size ** (1 / 2))`: the floor square root (the float square
root is exact for the sizes concerned), computed as the largest `k ≤ n`
with `k * k ≤ n`. -/
def floorSqrt (n : Nat) : Nat :=
  ((List.range (n + 1)).filter (fun k => k * k ≤ n)).foldl
    (fun a b => max a b) 0

/-- The error payload of an `Except`, if any (the `ValueError` message a
raising Python constructor propagates). -/
def exceptErr? {ε σ : Type _} : Except ε σ → Option ε
  | .error e => some e
  | .ok _ => none

/-- State of a `SudokuPuzzle`: the `LatinSquare` fields plus the box size and
the per-box candidate sets. -/
structure SP where
  max_cell_value : Nat
  box_size : Nat
  grid : List (List (Option Nat))
  num_empty_cells : Int
  allowed_values_for_row : List (Finset Nat)
  allowed_values_for_col : List (Finset Nat)
  allowed_values_for_box : List (Finset Nat)
  deriving DecidableEq

namespace SP

/-- A freshly constructed `SudokuPuzzle` of side `n` (no starting grid). -/
def fresh (n : Nat) : SP where
  max_cell_value := n
  box_size := floorSqrt n
  grid := List.replicate n (List.replicate n (none : Option Nat))
  num_empty_cells := (n * n : Nat)
  allowed_values_for_row := List.replicate n (completeSet n)
  allowed_values_for_col := List.replicate n (completeSet n)
  allowed_values_for_box := List.replicate n (completeSet n)

/-- `SudokuPuzzle.__init__` with `starting_grid=None`: first the box-size
check (`int(grid_size ** (1/2))` is the floor square root, exact for the
sizes concerned), then `LatinSquare.__init__`'s range check, then the state
is built. -/
def mk? (grid_size : Nat) : Except String SP :=
  if floorSqrt grid_size * floorSqrt grid_size ≠ grid_size then
    .error ("grid_size is not a square number")
  else if grid_size < MIN_PUZZLE_SIZE ∨ grid_size > MAX_PUZZLE_SIZE then
    .error ("grid_size outside allowed range")
  else .ok (fresh grid_size)

/-- `LatinSquare.get` (inherited). -/
def get (p : SP) (x y : Nat) : Option Nat :=
  (p.grid.getD x []).getD y none

/-- Row candidate set. -/
def rowCands (p : SP) (x : Nat) : Finset Nat :=
  p.allowed_values_for_row.getD x ∅

/-- Column candidate set. -/
def colCands (p : SP) (y : Nat) : Finset Nat :=
  p.allowed_values_for_col.getD y ∅

/-- Box candidate set. -/
def boxCands (p : SP) (b : Nat) : Finset Nat :=
  p.allowed_values_for_box.getD b ∅

/-- `SudokuPuzzle.box_xy_to_num`. -/
def box_xy_to_num (p : SP) (x y : Nat) : Nat :=
  (x / p.box_size) * p.box_size + y / p.box_size

/-- `SudokuPuzzle.box_num_to_xy`. -/
def box_num_to_xy (p : SP) (i : Nat) : Nat × Nat :=
  ((i / p.box_size) * p.box_size, (i % p.box_size) * p.box_size)

/-- `SudokuPuzzle.get_allowed_values`: the singleton of a set cell, else the
`LatinSquare` row ∩ column intersection further intersected with the box's
candidate set. -/
def get_allowed_values (p : SP) (x y : Nat) : Finset Nat :=
  match p.get x y with
  | some w => {w}
  | none => (p.rowCands x ∩ p.colCands y) ∩ p.boxCands (p.box_xy_to_num x y)

/-- `SudokuPuzzle.clear`: `LatinSquare.clear` plus re-adding the previous
value to the box candidate set. -/
def clear (p : SP) (x y : Nat) : SP :=
  match p.get x y with
  | none => p
  | some prev =>
    { p with
      grid := CP.setCell p.grid x y none
      num_empty_cells := p.num_empty_cells + 1
      allowed_values_for_row :=
        p.allowed_values_for_row.set x (insert prev (p.rowCands x))
      allowed_values_for_col :=
        p.allowed_values_for_col.set y (insert prev (p.colCands y))
      allowed_values_for_box :=
        p.allowed_values_for_box.set (p.box_xy_to_num x y)
          (insert prev (p.boxCands (p.box_xy_to_num x y))) }

/-- The committed state of a successful `SudokuPuzzle.set`: the
`LatinSquare.set` updates followed by the box candidate removal. -/
def writeState (p : SP) (x y v : Nat) : SP :=
  { p with
    grid := CP.setCell p.grid x y (some v)
    num_empty_cells := p.num_empty_cells - 1
    allowed_values_for_row :=
      p.allowed_values_for_row.set x ((p.rowCands x).erase v)
    allowed_values_for_col :=
      p.allowed_values_for_col.set y ((p.colCands y).erase v)
    allowed_values_for_box :=
      p.allowed_values_for_box.set (p.box_xy_to_num x y)
        ((p.boxCands (p.box_xy_to_num x y)).erase v) }

/-- `SudokuPuzzle.set`: its own early no-op check on the current value comes
before `LatinSquare.set` (range check, clear of a non-empty cell via the
overridden `clear`, gate on the overridden `get_allowed_values`), and on
success the box candidate update runs before returning. -/
def set (p : SP) (x y v : Nat) : Except SP SP :=
  if p.get x y = some v then .ok p
  else if v < MIN_CELL_VALUE ∨ v > p.max_cell_value then .error p
  else
    let p1 := if (p.get x y).isSome then p.clear x y else p
    if v ∈ p1.get_allowed_values x y then .ok (p1.writeState x y v)
    else .error p1

/-- `LatinSquare.get_row_values` (inherited). -/
def get_row_values (p : SP) (x : Nat) : List Nat :=
  (p.grid.getD x []).filterMap id

/-- `LatinSquare.get_column_values` (inherited). -/
def get_column_values (p : SP) (y : Nat) : List Nat :=
  p.grid.filterMap (fun r => r.getD y none)

/-- `SudokuPuzzle.get_box_values`: slice the box's rows and columns out of
the grid, flatten, and keep the non-empty values. -/
def get_box_values (p : SP) (box_num : Nat) : List Nat :=
  ((p.grid.drop (p.box_num_to_xy box_num).1).take p.box_size).flatMap
    (fun r => ((r.drop (p.box_num_to_xy box_num).2).take
        p.box_size).filterMap id)

/-- `SudokuPuzzle.is_valid`: every box duplicate-free, then the inherited
row/column checks. -/
def is_valid (p : SP) : Bool :=
  ((List.range p.max_cell_value).all fun b => (p.get_box_values b).Nodup) &&
  (((List.range p.max_cell_value).all fun x => (p.get_row_values x).Nodup) &&
   ((List.range p.max_cell_value).all fun y => (p.get_column_values y).Nodup))

/-- `LatinSquare.is_solved` (inherited): valid and no cell empty (the source
scans all cells rather than consulting the counter). -/
def is_solved (p : SP) : Bool :=
  p.is_valid &&
  ((allCells p.max_cell_value).all fun c => (p.get c.1 c.2).isSome)

/-- `LatinSquare.find_empty_cell` (inherited). -/
def find_empty_cell (p : SP) : Option (Nat × Nat) :=
  (allCells p.max_cell_value).find? (fun c => p.get c.1 c.2 = none)

/-- The consistency invariant of a `SudokuPuzzle` state: square box size,
`n × n` dimensions, true empty counter, in-range values, duplicate-free
regions, and candidate sets in sync with the grid for rows, columns and
boxes. -/
def Inv (p : SP) : Prop :=
  p.box_size * p.box_size = p.max_cell_value ∧
  p.grid.length = p.max_cell_value ∧
  (∀ r ∈ p.grid, r.length = p.max_cell_value) ∧
  p.allowed_values_for_row.length = p.max_cell_value ∧
  p.allowed_values_for_col.length = p.max_cell_value ∧
  p.allowed_values_for_box.length = p.max_cell_value ∧
  p.num_empty_cells = (countEmptyG p.grid : Int) ∧
  (∀ x < p.max_cell_value, ∀ y < p.max_cell_value, ∀ v : Nat,
    p.get x y = some v → v ∈ completeSet p.max_cell_value) ∧
  (∀ x < p.max_cell_value, (p.get_row_values x).Nodup) ∧
  (∀ y < p.max_cell_value, (p.get_column_values y).Nodup) ∧
  (∀ b < p.max_cell_value, (p.get_box_values b).Nodup) ∧
  (∀ x < p.max_cell_value, p.rowCands x
    = completeSet p.max_cell_value \ (p.get_row_values x).toFinset) ∧
  (∀ y < p.max_cell_value, p.colCands y
    = completeSet p.max_cell_value \ (p.get_column_values y).toFinset) ∧
  (∀ b < p.max_cell_value, p.boxCands b
    = completeSet p.max_cell_value \ (p.get_box_values b).toFinset)

instance (p : SP) : Decidable p.Inv := by
  unfold Inv
  infer_instance

end SP

/-- The row-major coordinate list of box `b` for box size `bs`. -/
def boxCoords (bs b : Nat) : List (Nat × Nat) :=
  (allCells bs).map (fun c => ((b / bs) * bs + c.1, (b % bs) * bs + c.2))

/-- Result of a backtracking-solver call: `ok solved p` is a normal return
carrying the final grid, `fail` models a raised exception (or exhausted
recursion fuel, which the correctness theorem shows never happens). -/
inductive BTRes where
  | ok (solved : Bool) (p : SP)
  | fail
  deriving DecidableEq

/-- The `for value in puzzle.get_allowed_values(x, y)` loop of
`BacktrackingSolver._solve_backtracking`: write the value, recurse; on a
failed recursion clear the cell and try the next value; an exception
propagates. -/
def tryVals (recurse : SP → BTRes) (x y : Nat) : SP → List Nat → BTRes
  | p, [] => .ok false p
  | p, v :: rest =>
    match p.set x y v with
    | .error _ => .fail
    | .ok p2 =>
      match recurse p2 with
      | .ok true p' => .ok true p'
      | .ok false p' => tryVals recurse x y (p'.clear x y) rest
      | .fail => .fail

/-- `BacktrackingSolver._solve_backtracking` with explicit recursion fuel
(the Python recursion depth is bounded by the number of empty cells; the
correctness theorem runs it with enough fuel).  The `find_empty_cell`
unpacking of an empty tuple would raise, modelled by `fail`; the candidate
set is iterated in ascending numeric order (CPython's small-int set order).
The `max_depth`/`backtrack_count` statistics counters are not modelled. -/
def solveBT : Nat → SP → BTRes
  | 0, _ => .fail
  | fuel + 1, p =>
    if p.num_empty_cells = 0 then .ok true p
    else
      match p.find_empty_cell with
      | none => .fail
      | some (x, y) =>
        tryVals (solveBT fuel) x y p
          ((p.get_allowed_values x y).sort (· ≤ ·))

/-- `BacktrackingSolver.solve`: immediate `True` on an already solved
puzzle, else the recursive search (with sufficient fuel). -/
def BacktrackingSolver.solve (p : SP) : BTRes :=
  if p.is_solved then .ok true p
  else solveBT (countEmptyG p.grid + 1) p

/-! ### MathDoku (`mathdoku.py`) -/

/-- A cage operator: one of the `OPS` keys `+`, `-`, `/`, `*`, `=`. -/
inductive CageOp where
  | add
  | sub
  | div
  | mul
  | eq
  deriving DecidableEq

/-- Apply a cage operator to a value tuple the way `OPS[op](values)` does:
built-in `sum` for `+` (defined on the empty tuple); `reduce` left-to-right
for `-`, `//` and `*` (`none` models the `TypeError` `reduce` raises on an
empty tuple, and the `ZeroDivisionError` of `//`; Python `//` is floor
division, `Int.fdiv`); `equals` returns the single element and raises
unless the tuple has length exactly 1. -/
def evalOp : CageOp → List Int → Option Int
  | .add, l => some l.sum
  | .sub, [] => none
  | .sub, a :: rest => some (rest.foldl (fun s t => s - t) a)
  | .div, [] => none
  | .div, a :: rest =>
    if rest.any (fun t => t = 0) then none
    else some (rest.foldl (fun s t => Int.fdiv s t) a)
  | .mul, [] => none
  | .mul, a :: rest => some (rest.foldl (fun s t => s * t) a)
  | .eq, [a] => some a
  | .eq, _ => none

/-- `values.sort(reverse=True)`: the values in descending order. -/
def sortDesc (l : List Nat) : List Nat :=
  l.insertionSort (fun a b => b ≤ a)

/-- State of a `MathDoku`: the inherited `ConstraintPuzzle` state plus the
cage list `(target, OPS[operation], num_cells)` built by `_init_cages`, the
cell-to-cage map and cage-to-cells reverse map built by `_init_cage_map`,
and the per-cage possibility lists built by `_generate_cage_options`. -/
structure MD where
  base : CP
  cages : List (Int × CageOp × Nat)
  cells_2_cages : List (List Nat)
  cages_2_cells : List (List (Nat × Nat))
  cage_possibilities : List (List (List Nat))
  deriving DecidableEq

namespace MD

/-- `ConstraintPuzzle.get` (inherited). -/
def get (m : MD) (x y : Nat) : Option Nat := m.base.get x y

/-- The flattened set of values occurring in some possibility tuple of cage
`i` (`set([i for sublist in possible_sets for i in sublist])`). -/
def cage_flat (m : MD) (i : Nat) : Finset Nat :=
  ((m.cage_possibilities.getD i []).flatMap id).toFinset

/-- `MathDoku.get_allowed_values`: the singleton of a set cell; otherwise
the inherited row ∩ column intersection, further intersected with the
flattened possibility values of the cell's cage. -/
def get_allowed_values (m : MD) (x y : Nat) : Finset Nat :=
  match m.base.get x y with
  | some w => {w}
  | none =>
    (m.base.rowCands x ∩ m.base.colCands y)
      ∩ m.cage_flat ((m.cells_2_cages.getD x []).getD y 0)

/-- `ConstraintPuzzle.is_allowed_value` as dispatched on a `MathDoku`:
`self.get_allowed_values` resolves to the override above. -/
def is_allowed_value (m : MD) (x y v : Nat) : Bool :=
  if v ≠ 0 ∧ m.base.get x y = some v then true
  else v ∈ m.get_allowed_values x y

/-- The inherited `ConstraintPuzzle.set` as run on a `MathDoku`
(`super().set(x, y, v)`): the same body as the base class's, except that the
dispatched `self.is_allowed_value` consults `MathDoku.get_allowed_values`
(`self.clear` is not overridden by `MathDoku`). -/
def superSet (m : MD) (x y v : Nat) : Except MD MD :=
  if v < MIN_CELL_VALUE ∨ v > m.base.max_cell_value then .error m
  else if m.base.get x y = some v then .ok m
  else
    let m1 := if (m.base.get x y).isSome
      then { m with base := m.base.clear x y } else m
    if m1.is_allowed_value x y v then
      .ok { m1 with base := m1.base.writeState x y v }
    else .error m1

/-- The values currently placed in cage `i`, in cage cell-list order (the
`values` list built by `MathDoku.is_puzzle_valid`). -/
def cageVals (m : MD) (i : Nat) : List Nat :=
  (m.cages_2_cells.getD i []).filterMap (fun c => m.base.get c.1 c.2)

/-- One iteration of the cage loop of `MathDoku.is_puzzle_valid`: a complete
cage (every cell filled) must evaluate, over its descending-sorted value
tuple, to its target; an incomplete cage is skipped.  `none` models an
exception escaping the evaluation. -/
def cageCheck (m : MD) (i : Nat) (cage : Int × CageOp × Nat) : Option Bool :=
  if (m.cageVals i).length = cage.2.2 then
    match evalOp cage.2.1 ((sortDesc (m.cageVals i)).map
        (fun w => Int.ofNat w)) with
    | none => none
    | some r => some (cage.1 = r)
  else some true

/-- The cage loop of `MathDoku.is_puzzle_valid`, starting at cage index
`i`: stops at the first failing cage. -/
def cagesValid (m : MD) : Nat → List (Int × CageOp × Nat) → Option Bool
  | _, [] => some true
  | i, cage :: rest =>
    match m.cageCheck i cage with
    | none => none
    | some false => some false
    | some true => m.cagesValid (i + 1) rest

/-- `MathDoku.is_puzzle_valid`: the inherited row/column duplicate check
first, then every cage in order. -/
def is_puzzle_valid (m : MD) : Option Bool :=
  if m.base.is_puzzle_valid then m.cagesValid 0 m.cages else some false

/-- `MathDoku.set`: stash `prev`, run the inherited `set`; on success
re-check the whole puzzle, and if it now fails, roll the write back (via the
inherited `set` for a previously non-empty cell, `clear` otherwise) and
raise.  A `prev` that the rollback `set` itself rejects propagates that
inner exception's state. -/
def set (m : MD) (x y v : Nat) : Except MD MD :=
  match m.superSet x y v with
  | .error m1 => .error m1
  | .ok m2 =>
    match m2.is_puzzle_valid with
    | some true => .ok m2
    | none => .error m2
    | some false =>
      match m.base.get x y with
      | some pv => .error (endState (m2.superSet x y pv))
      | none => .error { m2 with base := m2.base.clear x y }

end MD

/-- A concrete 2×2 `MathDoku` in a consistent, valid state: the cage
`(2, '=', 1)` on cell (0,0) (already satisfied) and the cage `(5, '+', 3)`
on the remaining three cells. -/
def md0 : MD where
  base :=
    { max_cell_value := 2
      grid := [[some 2, none], [none, none]]
      num_empty_cells := 3
      allowed_values_for_row := [{1}, completeSet 2]
      allowed_values_for_col := [{1}, completeSet 2]
    }
  cages := [(2, CageOp.eq, 1), (5, CageOp.add, 3)]
  cells_2_cages := [[0, 1], [1, 1]]
  cages_2_cells := [[(0, 0)], [(0, 1), (1, 0), (1, 1)]]
  cage_possibilities := [[[2]], [[1, 2, 2]]]

/-- A concrete 2×2 `MathDoku` whose second cage is complete but evaluates to
the wrong target. -/
def md1 : MD where
  base :=
    { max_cell_value := 2
      grid := [[some 2, some 1], [some 1, some 2]]
      num_empty_cells := 0
      allowed_values_for_row := [∅, ∅]
      allowed_values_for_col := [∅, ∅]
    }
  cages := [(3, CageOp.add, 2), (4, CageOp.add, 2)]
  cells_2_cages := [[0, 0], [1, 1]]
  cages_2_cells := [[(0, 0), (0, 1)], [(1, 0), (1, 1)]]
  cage_possibilities := [[[1, 2]], [[2, 2]]]

/-! ### Generic list lemmas -/

theorem getD_eq_get?_getD {α : Type _} (l : List α) (i : Nat) (d : α) :
    l.getD i d = (l.get? i).getD d := by
  induction l generalizing i with
  | nil => cases i <;> rfl
  | cons a t ih => cases i with
    | zero => rfl
    | succ j => simpa using ih j

theorem getD_set_self {α : Type _} (d : α) (l : List α) (i : Nat) (a : α)
    (h : i < l.length) : (l.set i a).getD i d = a := by
  rw [getD_eq_get?_getD, List.get?_set_eq_of_lt _ h]
  rfl

theorem getD_set_ne {α : Type _} (d : α) (l : List α) {i j : Nat} (a : α)
    (h : i ≠ j) : (l.set i a).getD j d = l.getD j d := by
  rw [getD_eq_get?_getD, List.get?_set_ne _ _ h, getD_eq_get?_getD]

theorem set_get?_self {α : Type _} : ∀ (l : List α) (i : Nat) {a : α},
    l.get? i = some a → l.set i a = l
  | [], _, _, h => by simp at h
  | b :: t, 0, a, h => by simp_all
  | b :: t, i + 1, a, h => by
    simpa using set_get?_self t i (by simpa using h)

theorem filterMap_set_perm {α β : Type _} (f : α → Option β) :
    ∀ (l : List α) (i : Nat) {a b : α} {v : β},
    l.get? i = some a → f a = none → f b = some v →
    List.Perm ((l.set i b).filterMap f) (v :: l.filterMap f)
  | [], i, _, _, _, h, _, _ => by simp at h
  | c :: t, 0, a, b, v, h, ha, hb => by
    obtain rfl : c = a := by simpa using h
    simp [List.filterMap_cons, ha, hb]
  | c :: t, i + 1, a, b, v, h, ha, hb => by
    have ih := filterMap_set_perm f t i (by simpa using h) ha hb
    have hset : (c :: t).set (i + 1) b = c :: t.set i b := rfl
    rw [hset]
    match hc : f c with
    | none => simpa [List.filterMap_cons, hc] using ih
    | some w =>
      simp only [List.filterMap_cons, hc]
      exact (ih.cons w).trans (List.Perm.swap v w _)

theorem filterMap_set_congr {α β : Type _} (f : α → Option β) :
    ∀ (l : List α) (i : Nat) {a b : α},
    l.get? i = some a → f b = f a →
    (l.set i b).filterMap f = l.filterMap f
  | [], i, _, _, h, _ => by simp at h
  | c :: t, 0, a, b, h, hfb => by
    obtain rfl : c = a := by simpa using h
    simp [List.filterMap_cons, hfb]
  | c :: t, i + 1, a, b, h, hfb => by
    have ih := filterMap_set_congr f t i (by simpa using h) hfb
    simp [List.filterMap_cons, ih]

theorem not_mem_filterMap_take {α β : Type _} (f : α → Option β) :
    ∀ (l : List α) (i : Nat) {a : α} {v : β},
    (l.filterMap f).Nodup → l.get? i = some a → f a = some v →
    v ∉ (l.take i).filterMap f
  | [], i, _, _, _, h, _ => by simp at h
  | c :: t, 0, a, v, _, _, _ => by simp
  | c :: t, i + 1, a, v, hnd, h, hv => by
    have hmem : v ∈ t.filterMap f := by
      have : a ∈ t := List.get?_mem (by simpa using h)
      exact List.mem_filterMap.2 ⟨a, this, hv⟩
    match hc : f c with
    | none =>
      rw [List.filterMap_cons_none hc] at hnd
      simpa [List.filterMap_cons, hc] using
        not_mem_filterMap_take f t i hnd (by simpa using h) hv
    | some w =>
      rw [List.filterMap_cons_some hc] at hnd
      have hw : w ∉ t.filterMap f := (List.nodup_cons.1 hnd).1
      have hne : v ≠ w := fun hvw => hw (hvw ▸ hmem)
      simp only [List.take_succ_cons, List.filterMap_cons, hc, List.mem_cons]
      push_neg
      exact ⟨hne, not_mem_filterMap_take f t i (List.nodup_cons.1 hnd).2
        (by simpa using h) hv⟩

theorem countP_set {α : Type _} (q : α → Bool) :
    ∀ (l : List α) (i : Nat) {a : α} (b : α),
    l.get? i = some a →
    (l.set i b).countP q + (if q a then 1 else 0)
      = l.countP q + (if q b then 1 else 0)
  | [], i, _, _, h => by simp at h
  | c :: t, 0, a, b, h => by
    obtain rfl : c = a := by simpa using h
    simp [List.countP_cons]
    omega
  | c :: t, i + 1, a, b, h => by
    have ih := countP_set q t i b (by simpa using h)
    have hset : (c :: t).set (i + 1) b = c :: t.set i b := rfl
    rw [hset]
    simp only [List.countP_cons]
    omega

theorem sum_set_nat : ∀ (l : List Nat) (i : Nat) {k : Nat} (m : Nat),
    l.get? i = some k → (l.set i m).sum + k = l.sum + m
  | [], i, _, _, h => by simp at h
  | c :: t, 0, k, m, h => by
    obtain rfl : c = k := by simpa using h
    simp [List.sum_cons]
    omega
  | c :: t, i + 1, k, m, h => by
    have ih := sum_set_nat t i m (by simpa using h)
    have hset : (c :: t).set (i + 1) m = c :: t.set i m := rfl
    rw [hset]
    simp only [List.sum_cons]
    omega

theorem insert_sdiff_insert_self {α : Type _} [DecidableEq α]
    {s t : Finset α} {a : α} (hs : a ∈ s) (ht : a ∉ t) :
    insert a (s \ insert a t) = s \ t := by
  rw [Finset.sdiff_insert, Finset.insert_erase]
  exact Finset.mem_sdiff.2 ⟨hs, ht⟩

theorem getD_oob {α : Type _} {l : List α} {i : Nat} (d : α)
    (h : l.length ≤ i) : l.getD i d = d := by
  rw [getD_eq_get?_getD, List.get?_eq_none.2 h]
  rfl

theorem getD_eq_of_get? {α : Type _} {l : List α} {i : Nat} {a : α} (d : α)
    (h : l.get? i = some a) : l.getD i d = a := by
  rw [getD_eq_get?_getD, h]
  rfl

theorem get?_eq_getD {α : Type _} : ∀ {l : List α} {i : Nat} (d : α),
    i < l.length → l.get? i = some (l.getD i d)
  | [], i, _, h => by simp at h
  | a :: t, 0, _, _ => rfl
  | a :: t, i + 1, d, h => @get?_eq_getD _ t i d (by simpa using h)

theorem map_set' {α β : Type _} (f : α → β) :
    ∀ (l : List α) (i : Nat) (a : α),
    (l.set i a).map f = (l.map f).set i (f a)
  | [], _, _ => rfl
  | b :: t, 0, a => rfl
  | b :: t, i + 1, a => by
    have := map_set' f t i a
    simp only [List.map_cons]
    have hset : (b :: t).set (i + 1) a = b :: t.set i a := rfl
    have hset2 : (f b :: t.map f).set (i + 1) (f a) = f b :: (t.map f).set i (f a) := rfl
    rw [hset, List.map_cons, this, hset2]

theorem set_oob {α : Type _} {l : List α} {i : Nat} (a : α)
    (h : l.length ≤ i) : l.set i a = l := by
  induction l generalizing i with
  | nil => rfl
  | cons b t ih =>
    cases i with
    | zero => simp at h
    | succ j =>
      have : (b :: t).set (j + 1) a = b :: t.set j a := rfl
      rw [this, ih (by simpa using h)]

namespace CP

/-! ### Reading updated grids -/

theorem get_def (p : CP) (x y : Nat) :
    p.get x y = (p.grid.getD x []).getD y none := rfl

theorem ext' {p q : CP} (h1 : p.max_cell_value = q.max_cell_value)
    (h2 : p.grid = q.grid) (h3 : p.num_empty_cells = q.num_empty_cells)
    (h4 : p.allowed_values_for_row = q.allowed_values_for_row)
    (h5 : p.allowed_values_for_col = q.allowed_values_for_col) : p = q := by
  cases p
  cases q
  cases h1
  cases h2
  cases h3
  cases h4
  cases h5
  rfl

theorem get_some_bounds {p : CP} {x y : Nat} {v : Nat}
    (h : p.get x y = some v) :
    x < p.grid.length ∧ y < (p.grid.getD x []).length := by
  constructor
  · by_contra hx
    rw [get_def, getD_oob [] (by omega), getD_oob none (by simp)] at h
    exact Option.noConfusion h
  · by_contra hy
    rw [get_def, getD_oob none (by omega)] at h
    exact Option.noConfusion h

theorem getCell_setCell_self {g : List (List (Option Nat))} {x y : Nat}
    (v : Option Nat) (hx : x < g.length) (hy : y < (g.getD x []).length) :
    ((setCell g x y v).getD x []).getD y none = v := by
  unfold setCell
  rw [getD_set_self [] _ _ _ hx, getD_set_self none _ _ _ hy]

theorem getCell_setCell_ne {g : List (List (Option Nat))} {x y x' y' : Nat}
    (v : Option Nat) (h : x ≠ x' ∨ y ≠ y') :
    ((setCell g x y v).getD x' []).getD y' none = (g.getD x' []).getD y' none := by
  unfold setCell
  rcases h with h | h
  · rw [getD_set_ne [] g _ h]
  · by_cases hx : x < g.length
    · by_cases hxx : x = x'
      · subst hxx
        rw [getD_set_self [] _ _ _ hx, getD_set_ne none _ _ h]
      · rw [getD_set_ne [] g _ hxx]
    · rw [set_oob _ (by omega)]

theorem length_setCell (g : List (List (Option Nat))) (x y : Nat)
    (v : Option Nat) : (setCell g x y v).length = g.length := by
  unfold setCell
  rw [List.length_set]

theorem mem_setCell_length {g : List (List (Option Nat))} {x y : Nat}
    {v : Option Nat} {n : Nat} (hall : ∀ r ∈ g, r.length = n) :
    ∀ r ∈ setCell g x y v, r.length = n := by
  by_cases hx : x < g.length
  · intro r hrm
    rcases List.mem_or_eq_of_mem_set hrm with h | h
    · exact hall r h
    · subst h
      rw [List.length_set]
      exact hall _ (List.get?_mem (get?_eq_getD [] hx))
  · unfold setCell
    rw [set_oob _ (by omega)]
    exact hall

theorem get_some_lt_n {p : CP} (hg : p.grid.length = p.max_cell_value)
    (hr : ∀ r ∈ p.grid, r.length = p.max_cell_value)
    {x y : Nat} {v : Nat} (h : p.get x y = some v) :
    x < p.max_cell_value ∧ y < p.max_cell_value := by
  obtain ⟨hx, hy⟩ := get_some_bounds h
  have hlen : (p.grid.getD x []).length = p.max_cell_value :=
    hr _ (List.get?_mem (get?_eq_getD [] hx))
  omega

theorem clear_of_empty {p : CP} {x y : Nat} (h : p.get x y = none) :
    p.clear x y = p := by
  unfold clear
  rw [h]

/-! ### How one cell update changes the row / column value lists -/

theorem rowvals_setCell_ne (g : List (List (Option Nat))) {x x' : Nat}
    (y : Nat) (v : Option Nat) (hne : x ≠ x') :
    ((setCell g x y v).getD x' []).filterMap id = (g.getD x' []).filterMap id := by
  unfold setCell
  rw [getD_set_ne [] g _ hne]

theorem rowvals_write_perm {g : List (List (Option Nat))} {x y : Nat}
    (v : Nat) (hx : x < g.length) (hy : y < (g.getD x []).length)
    (hnone : (g.getD x []).getD y none = none) :
    List.Perm (((setCell g x y (some v)).getD x []).filterMap id)
      (v :: (g.getD x []).filterMap id) := by
  unfold setCell
  rw [getD_set_self [] _ _ _ hx]
  exact filterMap_set_perm id (g.getD x []) y
    (by rw [get?_eq_getD none hy, hnone]) rfl rfl

theorem rowvals_clear_perm {g : List (List (Option Nat))} {x y : Nat}
    {prev : Nat} (hx : x < g.length) (hy : y < (g.getD x []).length)
    (hprev : (g.getD x []).getD y none = some prev) :
    List.Perm ((g.getD x []).filterMap id)
      (prev :: ((setCell g x y none).getD x []).filterMap id) := by
  unfold setCell
  rw [getD_set_self [] _ _ _ hx]
  have hperm := filterMap_set_perm id ((g.getD x []).set y none) y
    (a := none) (b := some prev) (v := prev)
    (by rw [List.get?_set_eq_of_lt _ (by omega)]) rfl rfl
  rwa [List.set_set, set_get?_self _ _ (by rw [get?_eq_getD none hy, hprev])]
    at hperm

theorem colvals_setCell_ne (g : List (List (Option Nat))) (x : Nat)
    {y y' : Nat} (v : Option Nat) (hne : y ≠ y') :
    (setCell g x y v).filterMap (fun r => r.getD y' none)
      = g.filterMap (fun r => r.getD y' none) := by
  by_cases hx : x < g.length
  · unfold setCell
    exact filterMap_set_congr _ g x (get?_eq_getD [] hx)
      (getD_set_ne none _ _ hne)
  · unfold setCell
    rw [set_oob _ (by omega)]

theorem colvals_write_perm {g : List (List (Option Nat))} {x y : Nat}
    (v : Nat) (hx : x < g.length) (hy : y < (g.getD x []).length)
    (hnone : (g.getD x []).getD y none = none) :
    List.Perm ((setCell g x y (some v)).filterMap (fun r => r.getD y none))
      (v :: g.filterMap (fun r => r.getD y none)) := by
  unfold setCell
  exact filterMap_set_perm _ g x (get?_eq_getD [] hx) hnone
    (getD_set_self none _ _ _ hy)

theorem colvals_clear_perm {g : List (List (Option Nat))} {x y : Nat}
    {prev : Nat} (hx : x < g.length) (hy : y < (g.getD x []).length)
    (hprev : (g.getD x []).getD y none = some prev) :
    List.Perm (g.filterMap (fun r => r.getD y none))
      (prev :: (setCell g x y none).filterMap (fun r => r.getD y none)) := by
  have hperm := filterMap_set_perm (fun r => r.getD y none)
    (setCell g x y none) x
    (a := (g.getD x []).set y none) (b := g.getD x [])
    (by
      unfold setCell
      rw [List.get?_set_eq_of_lt _ (by omega)])
    (getD_set_self none _ _ _ hy) hprev
  have hback : (setCell g x y none).set x (g.getD x []) = g := by
    unfold setCell
    rw [List.set_set, set_get?_self _ _ (get?_eq_getD [] hx)]
  rwa [hback] at hperm

theorem countEmptyG_setCell {g : List (List (Option Nat))} {x y : Nat}
    {a : Option Nat} (b : Option Nat) (hx : x < g.length)
    (hy : y < (g.getD x []).length) (ha : (g.getD x []).getD y none = a) :
    countEmptyG (setCell g x y b) + (if a = none then 1 else 0)
      = countEmptyG g + (if b = none then 1 else 0) := by
  unfold countEmptyG setCell
  rw [map_set']
  have h1 := countP_set (fun o : Option Nat => o = none) (g.getD x []) y b
    (a := a) (by rw [get?_eq_getD none hy, ha])
  have h2 := sum_set_nat
    (g.map (fun r : List (Option Nat) => r.countP (fun o => o = none))) x
    (k := (g.getD x []).countP (fun o => o = none))
    (((g.getD x []).set y b).countP (fun o => o = none))
    (by rw [List.get?_map, get?_eq_getD [] hx]; rfl)
  simp only [decide_eq_true_eq] at h1 h2 ⊢
  omega

/-! ### `clear` preserves the invariant -/

theorem clear_inv {p : CP} (hInv : p.Inv) (x y : Nat) : (p.clear x y).Inv := by
  obtain ⟨hg, hr, hrl, hcl, hcount, hrange, hrowN, hcolN, hrowC, hcolC⟩ := hInv
  cases hsome : p.get x y with
  | none =>
    rw [clear_of_empty hsome]
    exact ⟨hg, hr, hrl, hcl, hcount, hrange, hrowN, hcolN, hrowC, hcolC⟩
  | some prev =>
    obtain ⟨hxg, hyg⟩ := get_some_bounds hsome
    obtain ⟨hxn, hyn⟩ := get_some_lt_n hg hr hsome
    have hprev : (p.grid.getD x []).getD y none = some prev := hsome
    have hq : p.clear x y =
        { p with
          grid := setCell p.grid x y none
          num_empty_cells := p.num_empty_cells + 1
          allowed_values_for_row :=
            p.allowed_values_for_row.set x (insert prev (p.rowCands x))
          allowed_values_for_col :=
            p.allowed_values_for_col.set y (insert prev (p.colCands y)) } := by
      unfold clear
      rw [hsome]
    have hrowperm := rowvals_clear_perm hxg hyg hprev
    have hcolperm := colvals_clear_perm hxg hyg hprev
    have hrownd : (prev :: ((setCell p.grid x y none).getD x []).filterMap id).Nodup :=
      hrowperm.nodup_iff.1 (hrowN x hxn)
    have hcolnd : (prev :: (setCell p.grid x y none).filterMap
        (fun r => r.getD y none)).Nodup :=
      hcolperm.nodup_iff.1 (hcolN y hyn)
    have hprevC : prev ∈ completeSet p.max_cell_value :=
      hrange x hxn y hyn prev hsome
    rw [hq]
    refine ⟨?_, ?_, ?_, ?_, ?_, ?_, ?_, ?_, ?_, ?_⟩
    · rw [length_setCell]
      exact hg
    · exact mem_setCell_length hr
    · rw [List.length_set]
      exact hrl
    · rw [List.length_set]
      exact hcl
    · have hcc := countEmptyG_setCell (a := some prev) none hxg hyg hprev
      simp at hcc
      show p.num_empty_cells + 1 = (countEmptyG (setCell p.grid x y none) : Int)
      rw [hcount]
      unfold countEmpty at *
      omega
    · intro x' hx' y' hy' v hv
      by_cases hc : x = x' ∧ y = y'
      · obtain ⟨rfl, rfl⟩ := hc
        have : ((setCell p.grid x y none).getD x []).getD y none = none :=
          getCell_setCell_self none hxg hyg
        rw [show ({ p with
          grid := setCell p.grid x y none
          num_empty_cells := p.num_empty_cells + 1
          allowed_values_for_row :=
            p.allowed_values_for_row.set x (insert prev (p.rowCands x))
          allowed_values_for_col :=
            p.allowed_values_for_col.set y (insert prev (p.colCands y)) } :
            CP).get x y = ((setCell p.grid x y none).getD x []).getD y none
          from rfl, this] at hv
        exact Option.noConfusion hv
      · rw [not_and_or] at hc
        have : ((setCell p.grid x y none).getD x' []).getD y' none
            = (p.grid.getD x' []).getD y' none := getCell_setCell_ne none hc
        rw [show ({ p with
          grid := setCell p.grid x y none
          num_empty_cells := p.num_empty_cells + 1
          allowed_values_for_row :=
            p.allowed_values_for_row.set x (insert prev (p.rowCands x))
          allowed_values_for_col :=
            p.allowed_values_for_col.set y (insert prev (p.colCands y)) } :
            CP).get x' y' = ((setCell p.grid x y none).getD x' []).getD y' none
          from rfl, this] at hv
        exact hrange x' hx' y' hy' v hv
    · intro x' hx'
      show (((setCell p.grid x y none).getD x' []).filterMap id).Nodup
      by_cases hxx : x = x'
      · subst hxx
        exact (List.nodup_cons.1 hrownd).2
      · rw [rowvals_setCell_ne p.grid y none hxx]
        exact hrowN x' hx'
    · intro y' hy'
      show ((setCell p.grid x y none).filterMap (fun r => r.getD y' none)).Nodup
      by_cases hyy : y = y'
      · subst hyy
        exact (List.nodup_cons.1 hcolnd).2
      · rw [colvals_setCell_ne p.grid x none hyy]
        exact hcolN y' hy'
    · intro x' hx'
      show (p.allowed_values_for_row.set x (insert prev (p.rowCands x))).getD x' ∅
          = completeSet p.max_cell_value
            \ (((setCell p.grid x y none).getD x' []).filterMap id).toFinset
      by_cases hxx : x = x'
      · subst hxx
        rw [getD_set_self ∅ _ _ _ (by omega)]
        have hfs : ((p.grid.getD x []).filterMap id).toFinset
            = insert prev (((setCell p.grid x y none).getD x []).filterMap
                id).toFinset := by
          rw [List.toFinset_eq_of_perm _ _ hrowperm]
          simp
        have hnm : prev ∉ (((setCell p.grid x y none).getD x []).filterMap
            id).toFinset := by
          rw [List.mem_toFinset]
          exact (List.nodup_cons.1 hrownd).1
        rw [hrowC x hxn]
        show insert prev (completeSet p.max_cell_value
            \ ((p.get_row_values x).toFinset)) = _
        unfold get_row_values
        rw [hfs]
        exact insert_sdiff_insert_self hprevC hnm
      · rw [getD_set_ne ∅ _ _ hxx, rowvals_setCell_ne p.grid y none hxx]
        exact hrowC x' hx'
    · intro y' hy'
      show (p.allowed_values_for_col.set y (insert prev (p.colCands y))).getD y' ∅
          = completeSet p.max_cell_value
            \ ((setCell p.grid x y none).filterMap
                (fun r => r.getD y' none)).toFinset
      by_cases hyy : y = y'
      · subst hyy
        rw [getD_set_self ∅ _ _ _ (by omega)]
        have hfs : (p.grid.filterMap (fun r => r.getD y none)).toFinset
            = insert prev ((setCell p.grid x y none).filterMap
                (fun r => r.getD y none)).toFinset := by
          rw [List.toFinset_eq_of_perm _ _ hcolperm]
          simp
        have hnm : prev ∉ ((setCell p.grid x y none).filterMap
            (fun r => r.getD y none)).toFinset := by
          rw [List.mem_toFinset]
          exact (List.nodup_cons.1 hcolnd).1
        rw [hcolC y hyn]
        show insert prev (completeSet p.max_cell_value
            \ ((p.get_column_values y).toFinset)) = _
        unfold get_column_values
        rw [hfs]
        exact insert_sdiff_insert_self hprevC hnm
      · rw [getD_set_ne ∅ _ _ hyy, colvals_setCell_ne p.grid x none hyy]
        exact hcolC y' hy'

/-! ### The committed write step -/

theorem clear_get_self {p : CP} {x y : Nat} {v : Nat}
    (h : p.get x y = some v) : (p.clear x y).get x y = none := by
  obtain ⟨hx, hy⟩ := get_some_bounds h
  unfold clear
  rw [h]
  show ((setCell p.grid x y none).getD x []).getD y none = none
  exact getCell_setCell_self none hx hy

theorem write_ok {p : CP} (hInv : p.Inv) {x y v : Nat}
    (hemp : p.get x y = none) (hall : v ∈ p.rowCands x ∩ p.colCands y) :
    (p.writeState x y v).Inv ∧
    (p.writeState x y v).get x y = some v ∧
    countEmpty (p.writeState x y v) + 1 = countEmpty p ∧
    (p.writeState x y v).clear x y = p := by
  obtain ⟨hg, hr, hrl, hcl, hcount, hrange, hrowN, hcolN, hrowC, hcolC⟩ := hInv
  have hxn : x < p.max_cell_value := by
    by_contra hc
    rw [show p.rowCands x = p.allowed_values_for_row.getD x ∅ from rfl,
      getD_oob ∅ (by omega)] at hall
    simp at hall
  have hyn : y < p.max_cell_value := by
    by_contra hc
    rw [show p.colCands y = p.allowed_values_for_col.getD y ∅ from rfl,
      getD_oob ∅ (by omega)] at hall
    simp at hall
  have hxg : x < p.grid.length := by omega
  have hyg : y < (p.grid.getD x []).length := by
    have := hr _ (List.get?_mem (get?_eq_getD [] hxg))
    omega
  have hvrow : v ∈ p.rowCands x := (Finset.mem_inter.1 hall).1
  have hvcol : v ∈ p.colCands y := (Finset.mem_inter.1 hall).2
  have hvC : v ∈ completeSet p.max_cell_value := by
    have := hrowC x hxn ▸ hvrow
    exact (Finset.mem_sdiff.1 this).1
  have hvnotrow : v ∉ (p.get_row_values x).toFinset := by
    have := hrowC x hxn ▸ hvrow
    exact (Finset.mem_sdiff.1 this).2
  have hvnotcol : v ∉ (p.get_column_values y).toFinset := by
    have := hcolC y hyn ▸ hvcol
    exact (Finset.mem_sdiff.1 this).2
  have hnone : (p.grid.getD x []).getD y none = none := hemp
  have hrowperm := rowvals_write_perm v hxg hyg hnone
  have hcolperm := colvals_write_perm v hxg hyg hnone
  have hrownd : (((setCell p.grid x y (some v)).getD x []).filterMap id).Nodup := by
    refine hrowperm.nodup_iff.2 (List.nodup_cons.2 ⟨?_, hrowN x hxn⟩)
    rw [← List.mem_toFinset]
    exact hvnotrow
  have hcolnd : ((setCell p.grid x y (some v)).filterMap
      (fun r => r.getD y none)).Nodup := by
    refine hcolperm.nodup_iff.2 (List.nodup_cons.2 ⟨?_, hcolN y hyn⟩)
    rw [← List.mem_toFinset]
    exact hvnotcol
  have hrowfs : (((setCell p.grid x y (some v)).getD x []).filterMap id).toFinset
      = insert v (p.get_row_values x).toFinset := by
    rw [List.toFinset_eq_of_perm _ _ hrowperm, List.toFinset_cons]
    rfl
  have hcolfs : ((setCell p.grid x y (some v)).filterMap
      (fun r => r.getD y none)).toFinset
      = insert v (p.get_column_values y).toFinset := by
    rw [List.toFinset_eq_of_perm _ _ hcolperm, List.toFinset_cons]
    rfl
  have hcc := countEmptyG_setCell (a := none) (some v) hxg hyg hnone
  simp at hcc
  refine ⟨⟨?_, ?_, ?_, ?_, ?_, ?_, ?_, ?_, ?_, ?_⟩, ?_, ?_, ?_⟩
  · rw [show (p.writeState x y v).grid = setCell p.grid x y (some v) from rfl,
      length_setCell]
    exact hg
  · exact mem_setCell_length hr
  · rw [show (p.writeState x y v).allowed_values_for_row
        = p.allowed_values_for_row.set x ((p.rowCands x).erase v) from rfl,
      List.length_set]
    exact hrl
  · rw [show (p.writeState x y v).allowed_values_for_col
        = p.allowed_values_for_col.set y ((p.colCands y).erase v) from rfl,
      List.length_set]
    exact hcl
  · show p.num_empty_cells - 1 = (countEmptyG (setCell p.grid x y (some v)) : Int)
    rw [hcount]
    unfold countEmpty at *
    omega
  · intro x' hx' y' hy' w hw
    by_cases hc : x = x' ∧ y = y'
    · obtain ⟨rfl, rfl⟩ := hc
      have : (p.writeState x y v).get x y = some v :=
        getCell_setCell_self (some v) hxg hyg
      rw [this] at hw
      obtain rfl : v = w := by simpa using hw
      exact hvC
    · rw [not_and_or] at hc
      have : (p.writeState x y v).get x' y' = p.get x' y' :=
        getCell_setCell_ne (some v) hc
      rw [this] at hw
      exact hrange x' hx' y' hy' w hw
  · intro x' hx'
    show (((setCell p.grid x y (some v)).getD x' []).filterMap id).Nodup
    by_cases hxx : x = x'
    · subst hxx
      exact hrownd
    · rw [rowvals_setCell_ne p.grid y (some v) hxx]
      exact hrowN x' hx'
  · intro y' hy'
    show ((setCell p.grid x y (some v)).filterMap
        (fun r => r.getD y' none)).Nodup
    by_cases hyy : y = y'
    · subst hyy
      exact hcolnd
    · rw [colvals_setCell_ne p.grid x (some v) hyy]
      exact hcolN y' hy'
  · intro x' hx'
    show (p.allowed_values_for_row.set x ((p.rowCands x).erase v)).getD x' ∅
        = completeSet p.max_cell_value
          \ (((setCell p.grid x y (some v)).getD x' []).filterMap id).toFinset
    by_cases hxx : x = x'
    · subst hxx
      rw [getD_set_self ∅ _ _ _ (by omega), hrowfs, hrowC x hxn,
        Finset.sdiff_insert]
    · rw [getD_set_ne ∅ _ _ hxx, rowvals_setCell_ne p.grid y (some v) hxx]
      exact hrowC x' hx'
  · intro y' hy'
    show (p.allowed_values_for_col.set y ((p.colCands y).erase v)).getD y' ∅
        = completeSet p.max_cell_value
          \ ((setCell p.grid x y (some v)).filterMap
              (fun r => r.getD y' none)).toFinset
    by_cases hyy : y = y'
    · subst hyy
      rw [getD_set_self ∅ _ _ _ (by omega), hcolfs, hcolC y hyn,
        Finset.sdiff_insert]
    · rw [getD_set_ne ∅ _ _ hyy, colvals_setCell_ne p.grid x (some v) hyy]
      exact hcolC y' hy'
  · exact getCell_setCell_self (some v) hxg hyg
  · unfold countEmpty
    show countEmptyG (setCell p.grid x y (some v)) + 1 = countEmptyG p.grid
    omega
  · have hgetv : (p.writeState x y v).get x y = some v :=
      getCell_setCell_self (some v) hxg hyg
    unfold clear
    rw [hgetv]
    have e1 : setCell (p.writeState x y v).grid x y none = p.grid := by
      show setCell (setCell p.grid x y (some v)) x y none = p.grid
      unfold setCell
      have h1 : ((p.grid.getD x []).set y (some v)).set y none
          = p.grid.getD x [] := by
        rw [List.set_set]
        exact set_get?_self _ _ (by rw [get?_eq_getD none hyg, hnone])
      rw [getD_set_self [] _ _ _ hxg, h1, List.set_set,
        set_get?_self _ _ (get?_eq_getD [] hxg)]
    have e2 : (p.writeState x y v).num_empty_cells + 1 = p.num_empty_cells := by
      show p.num_empty_cells - 1 + 1 = p.num_empty_cells
      omega
    have e3 : (p.writeState x y v).allowed_values_for_row.set x
        (insert v ((p.writeState x y v).rowCands x)) = p.allowed_values_for_row := by
      show (p.allowed_values_for_row.set x ((p.rowCands x).erase v)).set x
        (insert v ((p.writeState x y v).rowCands x)) = _
      have : (p.writeState x y v).rowCands x = (p.rowCands x).erase v := by
        show (p.allowed_values_for_row.set x ((p.rowCands x).erase v)).getD x ∅
          = (p.rowCands x).erase v
        rw [getD_set_self ∅ _ _ _ (by omega)]
      rw [this, Finset.insert_erase hvrow, List.set_set]
      exact set_get?_self _ _ (get?_eq_getD ∅ (by omega))
    have e4 : (p.writeState x y v).allowed_values_for_col.set y
        (insert v ((p.writeState x y v).colCands y)) = p.allowed_values_for_col := by
      show (p.allowed_values_for_col.set y ((p.colCands y).erase v)).set y
        (insert v ((p.writeState x y v).colCands y)) = _
      have : (p.writeState x y v).colCands y = (p.colCands y).erase v := by
        show (p.allowed_values_for_col.set y ((p.colCands y).erase v)).getD y ∅
          = (p.colCands y).erase v
        rw [getD_set_self ∅ _ _ _ (by omega)]
      rw [this, Finset.insert_erase hvcol, List.set_set]
      exact set_get?_self _ _ (get?_eq_getD ∅ (by omega))
    exact ext' rfl e1 e2 e3 e4

/-! ### Classifying `set` -/

theorem mem_allowed_iff_inter {p : CP} {x y v : Nat}
    (hemp : p.get x y = none) :
    v ∈ p.get_allowed_values x y ↔ v ∈ p.rowCands x ∩ p.colCands y := by
  unfold get_allowed_values
  rw [hemp]

theorem set_of_empty_allowed {p : CP} (hInv : p.Inv) {x y v : Nat}
    (hemp : p.get x y = none) (hall : v ∈ p.get_allowed_values x y) :
    p.set x y v = .ok (p.writeState x y v) := by
  obtain ⟨hg, hr, hrl, hcl, hcount, hrange, hrowN, hcolN, hrowC, hcolC⟩ := hInv
  have hallI : v ∈ p.rowCands x ∩ p.colCands y :=
    (mem_allowed_iff_inter hemp).1 hall
  have hxn : x < p.max_cell_value := by
    by_contra hc
    rw [show p.rowCands x = p.allowed_values_for_row.getD x ∅ from rfl,
      getD_oob ∅ (by omega)] at hallI
    simp at hallI
  have hvC : v ∈ completeSet p.max_cell_value := by
    have := hrowC x hxn ▸ (Finset.mem_inter.1 hallI).1
    exact (Finset.mem_sdiff.1 this).1
  have h1 : ¬(v < MIN_CELL_VALUE ∨ v > p.max_cell_value) := by
    have := Finset.mem_Icc.1 hvC
    unfold MIN_CELL_VALUE
    omega
  have h2 : ¬(p.get x y = some v) := by
    rw [hemp]
    exact fun h => Option.noConfusion h
  have h4 : p.is_allowed_value x y v = true := by
    unfold is_allowed_value
    rw [if_neg (by
      rw [hemp]
      rintro ⟨-, hcontr⟩
      exact Option.noConfusion hcontr)]
    simpa using hall
  unfold set
  rw [if_neg h1, if_neg h2]
  simp only [hemp, Option.isSome_none, Bool.false_eq_true, if_false, h4,
    if_true]

theorem set_endState_inv {p : CP} (hInv : p.Inv) (x y v : Nat) :
    (endState (p.set x y v)).Inv := by
  unfold set
  by_cases h1 : v < MIN_CELL_VALUE ∨ v > p.max_cell_value
  · rw [if_pos h1]
    exact hInv
  · rw [if_neg h1]
    by_cases h2 : p.get x y = some v
    · rw [if_pos h2]
      exact hInv
    · rw [if_neg h2]
      have hInv1 : (if (p.get x y).isSome then p.clear x y else p).Inv := by
        split
        · exact clear_inv hInv x y
        · exact hInv
      have hemp1 : (if (p.get x y).isSome then p.clear x y else p).get x y
          = none := by
        cases hg0 : p.get x y with
        | none => simp only [hg0, Option.isSome_none, Bool.false_eq_true,
            if_false, hg0]
        | some w =>
          simp only [hg0, Option.isSome_some, if_true]
          exact clear_get_self hg0
      cases h4 : (if (p.get x y).isSome then p.clear x y else p).is_allowed_value
          x y v with
      | true =>
        simp only [h4, if_true]
        have hall1 : v ∈ (if (p.get x y).isSome then p.clear x y
            else p).get_allowed_values x y := by
          unfold is_allowed_value at h4
          rw [if_neg (by
            rw [hemp1]
            rintro ⟨-, hcontr⟩
            exact Option.noConfusion hcontr)] at h4
          simpa using h4
        exact (write_ok hInv1 hemp1
          ((mem_allowed_iff_inter hemp1).1 hall1)).1
      | false =>
        simp only [h4, Bool.false_eq_true, if_false]
        exact hInv1

theorem applyOp_inv {p : CP} (hInv : p.Inv) (op : GridOp) :
    (applyOp p op).Inv := by
  cases op with
  | setOp x y v => exact set_endState_inv hInv x y v
  | clearOp x y => exact clear_inv hInv x y

theorem applyOps_inv : ∀ (ops : List GridOp) {p : CP},
    p.Inv → (applyOps p ops).Inv
  | [], _, h => h
  | op :: rest, p, h => applyOps_inv rest (applyOp_inv h op)

/-! ### The freshly constructed grid -/

theorem getD_replicate' {α : Type _} {a d : α} {k i : Nat} :
    (List.replicate k a).getD i d = if i < k then a else d := by
  induction k generalizing i with
  | zero =>
    rw [List.replicate_zero]
    cases i <;> simp
  | succ m ih =>
    cases i with
    | zero => simp [List.replicate_succ]
    | succ j =>
      rw [List.replicate_succ]
      show (List.replicate m a).getD j d = _
      rw [ih]
      simp [Nat.succ_lt_succ_iff]

theorem filterMap_replicate_of_none {α β : Type _} {f : α → Option β} {a : α}
    (hf : f a = none) : ∀ k, (List.replicate k a).filterMap f = []
  | 0 => rfl
  | k + 1 => by
    rw [List.replicate_succ, List.filterMap_cons_none hf]
    exact filterMap_replicate_of_none hf k

theorem countP_replicate {α : Type _} (q : α → Bool) (a : α) :
    ∀ k, (List.replicate k a).countP q = if q a then k else 0
  | 0 => by simp
  | k + 1 => by
    rw [List.replicate_succ, List.countP_cons, countP_replicate q a k]
    by_cases h : q a <;> simp [h]

theorem fresh_get (n x y : Nat) : (fresh n).get x y = none := by
  show ((List.replicate n (List.replicate n (none : Option Nat))).getD x
      []).getD y none = none
  rw [getD_replicate']
  by_cases hx : x < n
  · rw [if_pos hx, getD_replicate']
    by_cases hy : y < n <;> simp [hy]
  · rw [if_neg hx]
    rfl

theorem fresh_inv (n : Nat) : (fresh n).Inv := by
  have hrowvals : ∀ x, (fresh n).get_row_values x = [] := by
    intro x
    show ((List.replicate n (List.replicate n (none : Option Nat))).getD x
        []).filterMap id = []
    rw [getD_replicate']
    by_cases hx : x < n
    · rw [if_pos hx]
      exact filterMap_replicate_of_none rfl n
    · rw [if_neg hx]
      rfl
  have hcolvals : ∀ y, (fresh n).get_column_values y = [] := by
    intro y
    show (List.replicate n (List.replicate n (none : Option Nat))).filterMap
        (fun r => r.getD y none) = []
    refine filterMap_replicate_of_none ?_ n
    rw [getD_replicate']
    by_cases hy : y < n <;> simp [hy]
  refine ⟨by simp [fresh], ?_, by simp [fresh], by simp [fresh], ?_, ?_, ?_,
    ?_, ?_, ?_⟩
  · intro r hrm
    rw [List.eq_of_mem_replicate hrm]
    simp [fresh]
  · show ((n * n : Nat) : Int) = (countEmptyG (List.replicate n
        (List.replicate n (none : Option Nat))) : Int)
    unfold countEmptyG
    rw [List.map_replicate, countP_replicate]
    simp [mul_comm]
  · intro x _ y _ v hv
    rw [fresh_get n x y] at hv
    exact Option.noConfusion hv
  · intro x _
    rw [hrowvals x]
    exact List.nodup_nil
  · intro y _
    rw [hcolvals y]
    exact List.nodup_nil
  · intro x hx
    have hx' : x < n := hx
    show (List.replicate n (completeSet n)).getD x ∅ = _
    rw [getD_replicate', if_pos hx', hrowvals x]
    show completeSet n = completeSet n \ ([] : List Nat).toFinset
    simp
  · intro y hy
    have hy' : y < n := hy
    show (List.replicate n (completeSet n)).getD y ∅ = _
    rw [getD_replicate', if_pos hy', hcolvals y]
    show completeSet n = completeSet n \ ([] : List Nat).toFinset
    simp

end CP

/-! ### The first cell yielded by `next_best_empty_cell` -/

theorem mem_allCells {n : Nat} {c : Nat × Nat} :
    c ∈ allCells n ↔ c.1 < n ∧ c.2 < n := by
  cases c with
  | mk a b =>
    unfold allCells
    simp only [List.mem_flatMap, List.mem_map, List.mem_range, Prod.mk.injEq]
    constructor
    · rintro ⟨i, hi, j, hj, rfl, rfl⟩
      exact ⟨hi, hj⟩
    · rintro ⟨ha, hb⟩
      exact ⟨a, ha, b, hb, rfl, rfl⟩

theorem flatMap_range'_head {β : Type _} (g : Nat → List β) :
    ∀ (m s cnt : Nat), m < cnt → (∀ k < m, g (s + k) = []) → g (s + m) ≠ [] →
    ((List.range' s cnt).flatMap g).head? = (g (s + m)).head?
  | 0, s, cnt + 1, _, _, hne => by
    show ((g s ++ (List.range' (s + 1) cnt).flatMap g)).head? = _
    rw [List.head?_append_of_ne_nil _ (by simpa using hne)]
    simp
  | m + 1, s, cnt + 1, hcnt, hzero, hne => by
    show ((g s ++ (List.range' (s + 1) cnt).flatMap g)).head? = _
    have hgs : g s = [] := by simpa using hzero 0 (by omega)
    rw [hgs, List.nil_append]
    have ih := flatMap_range'_head g m (s + 1) cnt (by omega)
      (fun k hk => by
        rw [show s + 1 + k = s + (k + 1) by omega]
        exact hzero (k + 1) (by omega))
      (by rw [show s + 1 + m = s + (m + 1) by omega]; exact hne)
    rw [ih, show s + 1 + m = s + (m + 1) by omega]

theorem find?_congr' {α : Type _} {p q : α → Bool} :
    ∀ {l : List α}, (∀ x ∈ l, p x = q x) → l.find? p = l.find? q
  | [], _ => rfl
  | a :: t, h => by
    rw [List.find?_cons, List.find?_cons, h a (List.mem_cons_self a t)]
    cases q a with
    | true => rfl
    | false => exact find?_congr' (fun x hx => h x (List.mem_cons_of_mem a hx))

/-! ### Serialization: flat string representation -/

theorem sum_map_const {α : Type _} {l : List α} {f : α → Nat} {c : Nat}
    (h : ∀ a ∈ l, f a = c) : (l.map f).sum = c * l.length := by
  induction l with
  | nil => simp
  | cons a t ih =>
    rw [List.map_cons, List.sum_cons, h a (List.mem_cons_self a t),
      ih (fun x hx => h x (List.mem_cons_of_mem a hx))]
    rw [List.length_cons]
    ring

theorem toFlatString_length {g : CP}
    (hg : g.grid.length = g.max_cell_value)
    (hr : ∀ r ∈ g.grid, r.length = g.max_cell_value) :
    (g.toFlatString).length = g.max_cell_value * g.max_cell_value := by
  have hlen : ∀ r ∈ g.grid,
      (List.length ∘ fun row : List (Option Nat) => row.map int2char) r
        = g.max_cell_value := by
    intro r hrm
    show (r.map int2char).length = g.max_cell_value
    rw [List.length_map]
    exact hr r hrm
  unfold CP.toFlatString
  rw [List.length_flatMap, sum_map_const hlen, hg]

theorem int2char_not_whitespace (o : Option Nat) :
    (int2char o).isWhitespace = false := by
  cases o with
  | none => decide
  | some v =>
    show (CELL_VALUES.getD (v - 1) '?').isWhitespace = false
    by_cases h : v - 1 < CELL_VALUES.length
    · have hmem : CELL_VALUES.getD (v - 1) '?' ∈ CELL_VALUES :=
        List.get?_mem (get?_eq_getD '?' h)
      revert hmem
      have : ∀ c ∈ CELL_VALUES, c.isWhitespace = false := by decide
      exact this _
    · rw [getD_oob '?' (by omega)]
      decide

theorem rstrip_eq_self {l : List Char}
    (h : ∀ c ∈ l, c.isWhitespace = false) : CP.rstrip l = l := by
  unfold CP.rstrip
  have : l.reverse.dropWhile (fun c => c.isWhitespace) = l.reverse := by
    cases hrev : l.reverse with
    | nil => rfl
    | cons a t =>
      rw [List.dropWhile_cons]
      have ha : a ∈ l := by
        rw [← List.mem_reverse, hrev]
        exact List.mem_cons_self a t
      rw [h a ha]
      simp
  rw [this, List.reverse_reverse]

theorem clear_all_fresh (n : Nat) : (CP.fresh n).clear_all = CP.fresh n := by
  show (allCells (CP.fresh n).max_cell_value).foldl
    (fun q c => q.clear c.1 c.2) (CP.fresh n) = CP.fresh n
  generalize allCells (CP.fresh n).max_cell_value = cs
  induction cs with
  | nil => rfl
  | cons c t ih =>
    rw [List.foldl_cons, CP.clear_of_empty (CP.fresh_get n c.1 c.2)]
    exact ih

theorem get?_flatten {α : Type _} :
    ∀ (l : List (List α)) {n i : Nat}, (∀ r ∈ l, r.length = n) →
    i < l.length * n →
    l.flatten.get? i = (l.getD (i / n) []).get? (i % n) := by
  intro l
  induction l with
  | nil =>
    intro n i _ hi
    simp at hi
  | cons r t ih =>
    intro n i hall hi
    have hn : 0 < n := by
      rcases Nat.eq_zero_or_pos n with h0 | h0
      · rw [h0, Nat.mul_zero] at hi
        omega
      · exact h0
    have hrlen : r.length = n := hall r (List.mem_cons_self r t)
    rw [List.flatten_cons]
    by_cases hlt : i < n
    · rw [List.get?_append (by omega), Nat.div_eq_of_lt hlt,
        Nat.mod_eq_of_lt hlt]
      rfl
    · push_neg at hlt
      rw [List.get?_append_right (by omega), hrlen]
      have hi' : i - n < t.length * n := by
        rw [List.length_cons, Nat.succ_mul] at hi
        omega
      rw [ih (fun x hx => hall x (List.mem_cons_of_mem r hx)) hi']
      obtain ⟨j, rfl⟩ : ∃ j, i = j + n := ⟨i - n, by omega⟩
      rw [Nat.add_sub_cancel, Nat.add_div_right _ hn, Nat.add_mod_right]
      rfl

theorem toFlatString_get? {g : CP}
    (hg : g.grid.length = g.max_cell_value)
    (hr : ∀ r ∈ g.grid, r.length = g.max_cell_value)
    {i : Nat} (hi : i < g.max_cell_value * g.max_cell_value) :
    (g.toFlatString).get? i
      = some (int2char (g.get (i / g.max_cell_value)
          (i % g.max_cell_value))) := by
  have hn : 0 < g.max_cell_value := by
    rcases Nat.eq_zero_or_pos g.max_cell_value with h0 | h0
    · rw [h0] at hi
      omega
    · exact h0
  have hflat : (g.grid.map (fun row => row.map int2char)).flatten
      = g.toFlatString := rfl
  have hdiv : i / g.max_cell_value < g.grid.length := by
    rw [hg]
    exact Nat.div_lt_iff_lt_mul hn |>.2 hi
  have hmod : i % g.max_cell_value < g.max_cell_value := Nat.mod_lt i hn
  rw [← hflat, get?_flatten (g.grid.map (fun row => row.map int2char))
    (fun x hx => by
      obtain ⟨row, hrow, rfl⟩ := List.mem_map.1 hx
      rw [List.length_map]
      exact hr row hrow)
    (by rw [List.length_map, hg]; exact hi)]
  rw [getD_eq_of_get? [] (by
    rw [List.get?_map, get?_eq_getD [] hdiv]
    rfl)]
  rw [List.get?_map, get?_eq_getD none (by
    rw [hr _ (List.get?_mem (get?_eq_getD [] hdiv))]
    exact hmod)]
  rfl

theorem char2int_int2char_decode :
    ∀ v < 26, 1 ≤ v → char2int (int2char (some v)) = some (some v) := by
  decide

theorem get_oob_none {p : CP}
    (hg : p.grid.length = p.max_cell_value)
    (hr : ∀ r ∈ p.grid, r.length = p.max_cell_value)
    {a b : Nat} (h : p.max_cell_value ≤ a ∨ p.max_cell_value ≤ b) :
    p.get a b = none := by
  cases hget : p.get a b with
  | none => rfl
  | some v =>
    obtain ⟨ha, hb⟩ := CP.get_some_lt_n hg hr hget
    omega

theorem eq_of_inv_get_eq {p q : CP} (hp : p.Inv) (hq : q.Inv)
    (hmax : p.max_cell_value = q.max_cell_value)
    (hget : ∀ a b : Nat, p.get a b = q.get a b) : p = q := by
  obtain ⟨hg1, hr1, hrl1, hcl1, hcount1, _, _, _, hrowC1, hcolC1⟩ := hp
  obtain ⟨hg2, hr2, hrl2, hcl2, hcount2, _, _, _, hrowC2, hcolC2⟩ := hq
  have hgrid : p.grid = q.grid := by
    refine List.ext (fun a => ?_)
    by_cases ha : a < p.max_cell_value
    · have ha1 : a < p.grid.length := by omega
      have ha2 : a < q.grid.length := by omega
      rw [get?_eq_getD [] ha1, get?_eq_getD [] ha2]
      have hl1 : (p.grid.getD a []).length = p.max_cell_value :=
        hr1 _ (List.get?_mem (get?_eq_getD [] ha1))
      have hl2 : (q.grid.getD a []).length = q.max_cell_value :=
        hr2 _ (List.get?_mem (get?_eq_getD [] ha2))
      refine congrArg some (List.ext (fun b => ?_))
      by_cases hb : b < p.max_cell_value
      · rw [get?_eq_getD none (by omega), get?_eq_getD none (by omega)]
        exact congrArg some (hget a b)
      · rw [List.get?_eq_none.2 (by omega), List.get?_eq_none.2 (by omega)]
    · rw [List.get?_eq_none.2 (by omega), List.get?_eq_none.2 (by omega)]
  refine CP.ext' hmax hgrid ?_ ?_ ?_
  · rw [hcount1, hcount2]
    unfold countEmpty
    rw [hgrid]
  · refine List.ext (fun x => ?_)
    by_cases hx : x < p.max_cell_value
    · rw [get?_eq_getD ∅ (by omega), get?_eq_getD ∅ (by omega)]
      show some (p.rowCands x) = some (q.rowCands x)
      rw [hrowC1 x hx, hrowC2 x (by omega)]
      show some (completeSet p.max_cell_value
        \ ((p.grid.getD x []).filterMap id).toFinset) = _
      rw [hgrid, hmax]
      rfl
    · rw [List.get?_eq_none.2 (by omega), List.get?_eq_none.2 (by omega)]
  · refine List.ext (fun y => ?_)
    by_cases hy : y < p.max_cell_value
    · rw [get?_eq_getD ∅ (by omega), get?_eq_getD ∅ (by omega)]
      show some (p.colCands y) = some (q.colCands y)
      rw [hcolC1 y hy, hcolC2 y (by omega)]
      show some (completeSet p.max_cell_value
        \ (p.grid.filterMap (fun r => r.getD y none)).toFinset) = _
      rw [hgrid, hmax]
      rfl
    · rw [List.get?_eq_none.2 (by omega), List.get?_eq_none.2 (by omega)]

/-- Replaying the serialized form of a consistent grid `g` from position `i`
onwards (cells of index `< i` already replayed into `q`) succeeds and
reproduces `g`'s cells. -/
theorem initStrLoop_replay {g : CP} (hgInv : g.Inv)
    (hle : g.max_cell_value ≤ MAX_PUZZLE_SIZE) :
    ∀ (k i : Nat) (q : CP), q.Inv →
    q.max_cell_value = g.max_cell_value →
    i + k = g.max_cell_value * g.max_cell_value →
    (∀ a b : Nat, q.get a b
      = if a * g.max_cell_value + b < i then g.get a b else none) →
    ∃ qf : CP, CP.initStrLoop q i ((g.toFlatString).drop i) = .ok qf ∧
      qf.Inv ∧ qf.max_cell_value = g.max_cell_value ∧
      (∀ a b : Nat, qf.get a b = g.get a b) := by
  obtain ⟨hgg, hgr, hgrl, hgcl, hgcount, hgrange, hgrowN, hgcolN, hgrowC,
    hgcolC⟩ := hgInv
  intro k
  induction k with
  | zero =>
    intro i q hqInv hqmax hik hcond
    have hdrop : (g.toFlatString).drop i = [] := by
      apply List.drop_eq_nil_of_le
      rw [toFlatString_length hgg hgr]
      omega
    rw [hdrop]
    refine ⟨q, rfl, hqInv, hqmax, fun a b => ?_⟩
    rw [hcond a b]
    by_cases hidx : a * g.max_cell_value + b < i
    · rw [if_pos hidx]
    · rw [if_neg hidx]
      symm
      apply get_oob_none hgg hgr
      by_contra hcon
      push_neg at hcon
      obtain ⟨ha, hb⟩ := hcon
      have h1 : (a + 1) * g.max_cell_value
          ≤ g.max_cell_value * g.max_cell_value :=
        Nat.mul_le_mul_right _ (by omega)
      have h2 : a * g.max_cell_value + b < (a + 1) * g.max_cell_value := by
        rw [Nat.succ_mul]
        omega
      omega
  | succ k ih =>
    intro i q hqInv hqmax hik hcond
    have hn : 0 < g.max_cell_value := by
      by_contra h0
      push_neg at h0
      have hz : g.max_cell_value = 0 := by omega
      rw [hz] at hik
      omega
    have hi_lt : i < g.max_cell_value * g.max_cell_value := by omega
    have hr_lt : i / g.max_cell_value < g.max_cell_value :=
      (Nat.div_lt_iff_lt_mul hn).2 hi_lt
    have hc_lt : i % g.max_cell_value < g.max_cell_value := Nat.mod_lt i hn
    have hrc : (i / g.max_cell_value) * g.max_cell_value
        + i % g.max_cell_value = i := by
      rw [mul_comm]
      exact Nat.div_add_mod i g.max_cell_value
    have hslen : (g.toFlatString).length
        = g.max_cell_value * g.max_cell_value := toFlatString_length hgg hgr
    have hgetchar := toFlatString_get? hgg hgr hi_lt
    have hdrop : (g.toFlatString).drop i
        = int2char (g.get (i / g.max_cell_value) (i % g.max_cell_value))
          :: (g.toFlatString).drop (i + 1) := by
      rw [List.drop_eq_get_cons (by omega)]
      congr 1
      have h2 : some ((g.toFlatString).get ⟨i, by omega⟩)
          = some (int2char (g.get (i / g.max_cell_value)
              (i % g.max_cell_value))) := by
        rw [← List.get?_eq_get, hgetchar]
      exact Option.some.inj h2
    have hqemp : q.get (i / g.max_cell_value) (i % g.max_cell_value)
        = none := by
      rw [hcond, hrc, if_neg (by omega)]
    have huniq : ∀ a b : Nat, a < g.max_cell_value → b < g.max_cell_value →
        a * g.max_cell_value + b = i →
        a = i / g.max_cell_value ∧ b = i % g.max_cell_value := by
      intro a b ha hb heq
      rw [Nat.mul_comm] at heq
      rw [Nat.add_comm] at heq
      have h := (Nat.div_mod_unique hn).2 ⟨heq, hb⟩
      exact ⟨h.1.symm, h.2.symm⟩
    rw [hdrop]
    cases hcell : g.get (i / g.max_cell_value) (i % g.max_cell_value) with
    | none =>
      have hloop : CP.initStrLoop q i
          ('.' :: (g.toFlatString).drop (i + 1))
          = CP.initStrLoop q (i + 1) ((g.toFlatString).drop (i + 1)) := by
        simp [CP.initStrLoop, char2int]
      rw [show int2char none = '.' from rfl, hloop]
      refine ih (i + 1) q hqInv hqmax (by omega) (fun a b => ?_)
      rw [hcond a b]
      by_cases h1 : a * g.max_cell_value + b < i
      · rw [if_pos h1, if_pos (by omega)]
      · rw [if_neg h1]
        by_cases h2 : a * g.max_cell_value + b < i + 1
        · rw [if_pos h2]
          by_cases hoc : a < g.max_cell_value ∧ b < g.max_cell_value
          · obtain ⟨rfl, rfl⟩ := huniq a b hoc.1 hoc.2 (by omega)
            exact hcell.symm
          · rw [not_and_or] at hoc
            symm
            exact get_oob_none hgg hgr (by omega)
        · rw [if_neg h2]
    | some v =>
      have hvC : v ∈ completeSet g.max_cell_value :=
        hgrange _ hr_lt _ hc_lt v hcell
      have hvIcc := Finset.mem_Icc.1 hvC
      have hdecode : char2int (int2char (some v)) = some (some v) :=
        char2int_int2char_decode v (by
          unfold MAX_PUZZLE_SIZE at hle
          omega) (by omega)
      obtain ⟨hqg, hqr, hqrl, hqcl, hqcount, hqrange, hqrowN, hqcolN, hqrowC,
        hqcolC⟩ := hqInv
      have hvnotrow : v ∉ q.get_row_values (i / g.max_cell_value) := by
        intro hmem
        obtain ⟨o, homem, hid⟩ := List.mem_filterMap.1 hmem
        obtain rfl : o = some v := hid
        obtain ⟨b, hb⟩ := List.mem_iff_get?.1 homem
        have hqget : q.get (i / g.max_cell_value) b = some v := by
          rw [CP.get_def, getD_eq_of_get? none hb]
        rw [hcond] at hqget
        by_cases hidx : (i / g.max_cell_value) * g.max_cell_value + b < i
        · rw [if_pos hidx] at hqget
          have hblt : b < i % g.max_cell_value := by
            have h2 : (i / g.max_cell_value) * g.max_cell_value + b
                < (i / g.max_cell_value) * g.max_cell_value
                  + i % g.max_cell_value := by
              rw [hrc]
              exact hidx
            exact Nat.lt_of_add_lt_add_left h2
          have hnotin := not_mem_filterMap_take id
            (g.grid.getD (i / g.max_cell_value) []) (i % g.max_cell_value)
            (hgrowN _ hr_lt) (by
              have hbb := CP.get_some_bounds hcell
              rw [get?_eq_getD none hbb.2]
              rw [show (g.grid.getD (i / g.max_cell_value) []).getD
                (i % g.max_cell_value) none = some v from hcell]) rfl
          apply hnotin
          refine List.mem_filterMap.2 ⟨some v, ?_, rfl⟩
          refine List.mem_iff_get?.2 ⟨b, ?_⟩
          rw [List.get?_take hblt]
          have hbb := CP.get_some_bounds hqget
          rw [get?_eq_getD none hbb.2]
          rw [show (g.grid.getD (i / g.max_cell_value) []).getD b none
            = some v from hqget]
        · rw [if_neg hidx] at hqget
          exact Option.noConfusion hqget
      have hvnotcol : v ∉ q.get_column_values (i % g.max_cell_value) := by
        intro hmem
        obtain ⟨row, hrowmem, hrowget⟩ := List.mem_filterMap.1 hmem
        obtain ⟨a, ha⟩ := List.mem_iff_get?.1 hrowmem
        have hqget : q.get a (i % g.max_cell_value) = some v := by
          rw [CP.get_def, getD_eq_of_get? [] ha]
          exact hrowget
        rw [hcond] at hqget
        by_cases hidx : a * g.max_cell_value + i % g.max_cell_value < i
        · rw [if_pos hidx] at hqget
          have halt : a < i / g.max_cell_value := by
            have h2 : a * g.max_cell_value + i % g.max_cell_value
                < (i / g.max_cell_value) * g.max_cell_value
                  + i % g.max_cell_value := by
              rw [hrc]
              exact hidx
            exact Nat.lt_of_mul_lt_mul_right (Nat.lt_of_add_lt_add_right h2)
          have hnotin := not_mem_filterMap_take
            (fun r => r.getD (i % g.max_cell_value) none) g.grid
            (i / g.max_cell_value) (hgcolN _ hc_lt)
            (get?_eq_getD [] (by omega)) hcell
          apply hnotin
          refine List.mem_filterMap.2 ⟨g.grid.getD a [], ?_, hqget⟩
          refine List.mem_iff_get?.2 ⟨a, ?_⟩
          rw [List.get?_take halt]
          exact get?_eq_getD [] (by omega)
        · rw [if_neg hidx] at hqget
          exact Option.noConfusion hqget
      have hall : v ∈ q.get_allowed_values (i / g.max_cell_value)
          (i % g.max_cell_value) := by
        rw [CP.mem_allowed_iff_inter hqemp]
        refine Finset.mem_inter.2 ⟨?_, ?_⟩
        · rw [hqrowC _ (by omega)]
          refine Finset.mem_sdiff.2 ⟨by rw [hqmax]; exact hvC, ?_⟩
          rw [List.mem_toFinset]
          exact hvnotrow
        · rw [hqcolC _ (by omega)]
          refine Finset.mem_sdiff.2 ⟨by rw [hqmax]; exact hvC, ?_⟩
          rw [List.mem_toFinset]
          exact hvnotcol
      have hqInv' : q.Inv := ⟨hqg, hqr, hqrl, hqcl, hqcount, hqrange, hqrowN,
        hqcolN, hqrowC, hqcolC⟩
      have hset := CP.set_of_empty_allowed hqInv' hqemp hall
      obtain ⟨hwInv, hwget, hwcount, hwclear⟩ :=
        CP.write_ok hqInv' hqemp ((CP.mem_allowed_iff_inter hqemp).1 hall)
      have hloop : CP.initStrLoop q i
          (int2char (some v) :: (g.toFlatString).drop (i + 1))
          = CP.initStrLoop
              (q.writeState (i / g.max_cell_value) (i % g.max_cell_value) v)
              (i + 1) ((g.toFlatString).drop (i + 1)) := by
        simp only [CP.initStrLoop, hdecode]
        rw [hqmax, hset]
      rw [hloop]
      refine ih (i + 1)
        (q.writeState (i / g.max_cell_value) (i % g.max_cell_value) v)
        hwInv hqmax (by omega) (fun a b => ?_)
      by_cases hab : a = i / g.max_cell_value ∧ b = i % g.max_cell_value
      · obtain ⟨rfl, rfl⟩ := hab
        rw [hwget, if_pos (by omega), hcell]
      · rw [not_and_or] at hab
        have hne : i / g.max_cell_value ≠ a ∨ i % g.max_cell_value ≠ b :=
          hab.imp Ne.symm Ne.symm
        have hskip : (q.writeState (i / g.max_cell_value)
            (i % g.max_cell_value) v).get a b = q.get a b :=
          CP.getCell_setCell_ne (some v) hne
        rw [hskip, hcond]
        by_cases h1 : a * g.max_cell_value + b < i
        · rw [if_pos h1, if_pos (by omega)]
        · rw [if_neg h1]
          by_cases h2 : a * g.max_cell_value + b < i + 1
          · rw [if_pos h2]
            by_cases hoc : a < g.max_cell_value ∧ b < g.max_cell_value
            · obtain ⟨ha', hb'⟩ := huniq a b hoc.1 hoc.2 (by omega)
              exfalso
              rcases hab with hx | hx
              · exact hx ha'
              · exact hx hb'
            · rw [not_and_or] at hoc
              symm
              exact get_oob_none hgg hgr (by omega)
          · rw [if_neg h2]

/-! ### Box regions of a SudokuPuzzle -/

theorem flatMap_map' {α β γ : Type _} (g : α → β) (f : β → List γ)
    (l : List α) : (l.map g).flatMap f = l.flatMap (fun a => f (g a)) := by
  induction l with
  | nil => rfl
  | cons a t ih => simp [ih]

theorem flatMap_congr' {α β : Type _} {f g : α → List β} :
    ∀ {l : List α}, (∀ a ∈ l, f a = g a) → l.flatMap f = l.flatMap g
  | [], _ => rfl
  | a :: t, h => by
    rw [List.flatMap_cons, List.flatMap_cons, h a (List.mem_cons_self a t),
      flatMap_congr' (fun x hx => h x (List.mem_cons_of_mem a hx))]

theorem filterMap_flatMap' {α β γ : Type _} (l : List α) (f : α → List β)
    (g : β → Option γ) :
    (l.flatMap f).filterMap g = l.flatMap (fun a => (f a).filterMap g) := by
  induction l with
  | nil => rfl
  | cons a t ih => simp [ih]

theorem filterMap_map' {α β γ : Type _} (f : α → β) (g : β → Option γ)
    (l : List α) : (l.map f).filterMap g = l.filterMap (fun a => g (f a)) := by
  induction l with
  | nil => rfl
  | cons a t ih =>
    rw [List.map_cons, List.filterMap_cons, List.filterMap_cons, ih]

theorem drop_take_eq_map_getD {α : Type _} (d : α) (l : List α) (s t : Nat)
    (h : s + t ≤ l.length) :
    (l.drop s).take t = (List.range t).map (fun i => l.getD (s + i) d) := by
  refine List.ext (fun i => ?_)
  by_cases hi : i < t
  · rw [List.get?_take hi, List.get?_drop, List.get?_map,
      List.get?_range hi]
    exact get?_eq_getD d (by omega)
  · rw [List.get?_eq_none.2, List.get?_eq_none.2]
    · rw [List.length_map, List.length_range]
      omega
    · have := List.length_take t (l.drop s)
      omega

theorem allCells_nodup (n : Nat) : (allCells n).Nodup := by
  unfold allCells
  refine List.nodup_flatMap.2 ⟨?_, ?_⟩
  · intro i _
    exact (List.nodup_range n).map (fun a b hab => by
      simpa using congrArg Prod.snd hab)
  · refine (List.pairwise_lt_range n).imp ?_
    intro a b hab
    intro x hx1 hx2
    obtain ⟨j1, -, rfl⟩ := List.mem_map.1 hx1
    obtain ⟨j2, -, h2⟩ := List.mem_map.1 hx2
    have := congrArg Prod.fst h2
    simp at this
    omega

theorem boxCoords_nodup (bs b : Nat) : (boxCoords bs b).Nodup := by
  refine (allCells_nodup bs).map ?_
  intro c1 c2 h
  have h1 := congrArg Prod.fst h
  have h2 := congrArg Prod.snd h
  simp at h1 h2
  exact Prod.ext h1 h2

theorem mem_boxCoords {bs b : Nat} {c : Nat × Nat} :
    c ∈ boxCoords bs b
      ↔ ∃ di < bs, ∃ dj < bs,
          c = ((b / bs) * bs + di, (b % bs) * bs + dj) := by
  unfold boxCoords
  constructor
  · intro h
    obtain ⟨⟨di, dj⟩, hmem, rfl⟩ := List.mem_map.1 h
    obtain ⟨h1, h2⟩ := mem_allCells.1 hmem
    exact ⟨di, h1, dj, h2, rfl⟩
  · rintro ⟨di, h1, dj, h2, rfl⟩
    exact List.mem_map.2 ⟨(di, dj), mem_allCells.2 ⟨h1, h2⟩, rfl⟩

theorem box_decomp {bs x y : Nat} (hbs : 0 < bs) (hx : x < bs * bs)
    (hy : y < bs * bs) :
    ((x / bs) * bs + y / bs) / bs = x / bs ∧
    ((x / bs) * bs + y / bs) % bs = y / bs := by
  have hyb : y / bs < bs := (Nat.div_lt_iff_lt_mul hbs).2 hy
  refine (Nat.div_mod_unique hbs).2 ⟨?_, hyb⟩
  rw [Nat.add_comm, Nat.mul_comm]

theorem mem_boxCoords_self {bs x y : Nat} (hbs : 0 < bs) (hx : x < bs * bs)
    (hy : y < bs * bs) :
    (x, y) ∈ boxCoords bs ((x / bs) * bs + y / bs) := by
  obtain ⟨hd, hm⟩ := box_decomp hbs hx hy
  refine mem_boxCoords.2 ⟨x % bs, Nat.mod_lt x hbs, y % bs, Nat.mod_lt y hbs,
    ?_⟩
  rw [hd, hm]
  refine Prod.ext ?_ ?_ <;> simp
  · rw [Nat.mul_comm]
    exact (Nat.div_add_mod x bs).symm
  · rw [Nat.mul_comm]
    exact (Nat.div_add_mod y bs).symm

theorem boxnum_lt {bs x y : Nat} (hbs : 0 < bs) (hx : x < bs * bs) :
    (x / bs) * bs + y / bs < bs * bs ∨ bs ≤ y / bs := by
  by_cases hyb : y / bs < bs
  · left
    have h1 : x / bs < bs := (Nat.div_lt_iff_lt_mul hbs).2 hx
    have h2 : (x / bs + 1) * bs ≤ bs * bs := Nat.mul_le_mul_right _ (by omega)
    rw [Nat.succ_mul] at h2
    omega
  · right
    omega

theorem boxnum_of_mem {bs b : Nat} {c : Nat × Nat} (hbs : 0 < bs)
    (hb : b < bs * bs) (hmem : c ∈ boxCoords bs b) :
    (c.1 / bs) * bs + c.2 / bs = b ∧ c.1 < bs * bs ∧ c.2 < bs * bs := by
  obtain ⟨di, h1, dj, h2, rfl⟩ := mem_boxCoords.1 hmem
  have hdb : b / bs < bs := (Nat.div_lt_iff_lt_mul hbs).2 hb
  have hdiv1 : ((b / bs) * bs + di) / bs = b / bs ∧
      ((b / bs) * bs + di) % bs = di :=
    (Nat.div_mod_unique hbs).2 ⟨by rw [Nat.add_comm, Nat.mul_comm], h1⟩
  have hdiv2 : ((b % bs) * bs + dj) / bs = b % bs ∧
      ((b % bs) * bs + dj) % bs = dj :=
    (Nat.div_mod_unique hbs).2
      ⟨by rw [Nat.add_comm, Nat.mul_comm], h2⟩
  refine ⟨?_, ?_, ?_⟩
  · show (((b / bs) * bs + di) / bs) * bs + ((b % bs) * bs + dj) / bs = b
    rw [hdiv1.1, hdiv2.1, Nat.mul_comm]
    exact Nat.div_add_mod b bs
  · show (b / bs) * bs + di < bs * bs
    have h2' : (b / bs + 1) * bs ≤ bs * bs := Nat.mul_le_mul_right _ (by omega)
    rw [Nat.succ_mul] at h2'
    omega
  · show (b % bs) * bs + dj < bs * bs
    have hmb : b % bs < bs := Nat.mod_lt b hbs
    have h2' : (b % bs + 1) * bs ≤ bs * bs := Nat.mul_le_mul_right _ (by omega)
    rw [Nat.succ_mul] at h2'
    omega

theorem SP.get_box_values_eq_coords {p : SP}
    (hbs : p.box_size * p.box_size = p.max_cell_value)
    (hg : p.grid.length = p.max_cell_value)
    (hr : ∀ r ∈ p.grid, r.length = p.max_cell_value)
    {b : Nat} (hb : b < p.max_cell_value) :
    p.get_box_values b
      = (boxCoords p.box_size b).filterMap (fun c => p.get c.1 c.2) := by
  have hbs0 : 0 < p.box_size := by
    rcases Nat.eq_zero_or_pos p.box_size with h0 | h0
    · rw [h0] at hbs
      omega
    · exact h0
  have hdb : b / p.box_size < p.box_size :=
    (Nat.div_lt_iff_lt_mul hbs0).2 (by omega)
  have hmb : b % p.box_size < p.box_size := Nat.mod_lt b hbs0
  have hbx : (b / p.box_size) * p.box_size + p.box_size ≤ p.grid.length := by
    have : (b / p.box_size + 1) * p.box_size ≤ p.box_size * p.box_size :=
      Nat.mul_le_mul_right _ (by omega)
    rw [Nat.succ_mul] at this
    omega
  unfold SP.get_box_values SP.box_num_to_xy
  rw [drop_take_eq_map_getD [] p.grid _ _ hbx, flatMap_map']
  unfold boxCoords
  rw [filterMap_map']
  unfold allCells
  rw [filterMap_flatMap']
  refine flatMap_congr' (fun i hi => ?_)
  have hilt : i < p.box_size := List.mem_range.1 hi
  have hrowmem : p.grid.getD ((b / p.box_size) * p.box_size + i) []
      ∈ p.grid :=
    List.get?_mem (get?_eq_getD [] (by omega))
  have hrlen := hr _ hrowmem
  have hby : (b % p.box_size) * p.box_size + p.box_size
      ≤ (p.grid.getD ((b / p.box_size) * p.box_size + i) []).length := by
    have h2 : (b % p.box_size + 1) * p.box_size
        ≤ p.box_size * p.box_size := Nat.mul_le_mul_right _ (by omega)
    rw [Nat.succ_mul] at h2
    omega
  rw [drop_take_eq_map_getD none _ _ _ hby, filterMap_map', filterMap_map']
  rfl

theorem filterMap_update_perm {γ : Type _} [DecidableEq γ]
    {f f' : γ → Option Nat} {v : Nat} :
    ∀ {L : List γ} {c0 : γ}, L.Nodup → c0 ∈ L →
    (∀ c ∈ L, c ≠ c0 → f' c = f c) → f c0 = none → f' c0 = some v →
    List.Perm (L.filterMap f') (v :: L.filterMap f)
  | [], c0, _, hc0, _, _, _ => absurd hc0 (List.not_mem_nil c0)
  | c :: t, c0, hnd, hc0, hsame, hold, hnew => by
    by_cases hcc : c = c0
    · subst hcc
      have hct : c ∉ t := (List.nodup_cons.1 hnd).1
      have ht : t.filterMap f' = t.filterMap f := by
        refine List.filterMap_congr (fun a ha => ?_)
        exact hsame a (List.mem_cons_of_mem c ha)
          (fun hac => hct (hac ▸ ha))
      rw [List.filterMap_cons_some hnew, ht, List.filterMap_cons_none hold]
    · have hc0t : c0 ∈ t := by
        rcases List.mem_cons.1 hc0 with h | h
        · exact absurd h.symm hcc
        · exact h
      have hfc : f' c = f c :=
        hsame c (List.mem_cons_self c t) hcc
      have ih := filterMap_update_perm (v := v) (List.nodup_cons.1 hnd).2
        hc0t (fun a ha hne => hsame a (List.mem_cons_of_mem c ha) hne)
        hold hnew
      rw [List.filterMap_cons, List.filterMap_cons, hfc]
      cases hfcv : f c with
      | none => exact ih
      | some w => exact (ih.cons w).trans (List.Perm.swap v w _)

namespace SP

theorem get_def_sq (p : SP) (x y : Nat) :
    p.get x y = (p.grid.getD x []).getD y none := rfl

theorem ext_sq {p q : SP} (h0 : p.max_cell_value = q.max_cell_value)
    (h1 : p.box_size = q.box_size) (h2 : p.grid = q.grid)
    (h3 : p.num_empty_cells = q.num_empty_cells)
    (h4 : p.allowed_values_for_row = q.allowed_values_for_row)
    (h5 : p.allowed_values_for_col = q.allowed_values_for_col)
    (h6 : p.allowed_values_for_box = q.allowed_values_for_box) : p = q := by
  cases p
  cases q
  cases h0
  cases h1
  cases h2
  cases h3
  cases h4
  cases h5
  cases h6
  rfl

theorem get_some_bounds_sq {p : SP} {x y : Nat} {v : Nat}
    (h : p.get x y = some v) :
    x < p.grid.length ∧ y < (p.grid.getD x []).length := by
  constructor
  · by_contra hx
    rw [get_def_sq, getD_oob [] (by omega), getD_oob none (by simp)] at h
    exact Option.noConfusion h
  · by_contra hy
    rw [get_def_sq, getD_oob none (by omega)] at h
    exact Option.noConfusion h

theorem get_some_lt_n_sq {p : SP} (hg : p.grid.length = p.max_cell_value)
    (hr : ∀ r ∈ p.grid, r.length = p.max_cell_value)
    {x y : Nat} {v : Nat} (h : p.get x y = some v) :
    x < p.max_cell_value ∧ y < p.max_cell_value := by
  obtain ⟨hx, hy⟩ := get_some_bounds_sq h
  have hlen : (p.grid.getD x []).length = p.max_cell_value :=
    hr _ (List.get?_mem (get?_eq_getD [] hx))
  omega

theorem clear_of_empty_sq {p : SP} {x y : Nat} (h : p.get x y = none) :
    p.clear x y = p := by
  unfold clear
  rw [h]

theorem clear_get_self_sq {p : SP} {x y : Nat} {v : Nat}
    (h : p.get x y = some v) : (p.clear x y).get x y = none := by
  obtain ⟨hx, hy⟩ := get_some_bounds_sq h
  unfold clear
  rw [h]
  exact CP.getCell_setCell_self none hx hy

theorem get_oob_none_sq {p : SP}
    (hg : p.grid.length = p.max_cell_value)
    (hr : ∀ r ∈ p.grid, r.length = p.max_cell_value)
    {a b : Nat} (h : p.max_cell_value ≤ a ∨ p.max_cell_value ≤ b) :
    p.get a b = none := by
  cases hget : p.get a b with
  | none => rfl
  | some v =>
    obtain ⟨ha, hb⟩ := get_some_lt_n_sq hg hr hget
    omega

theorem boxnum_lt_n {p : SP} (hbs : p.box_size * p.box_size = p.max_cell_value)
    (hbs0 : 0 < p.box_size) {x y : Nat} (hx : x < p.max_cell_value)
    (hy : y < p.max_cell_value) :
    p.box_xy_to_num x y < p.max_cell_value := by
  rcases boxnum_lt hbs0 (y := y) (show x < p.box_size * p.box_size by omega)
    with h | h
  · show (x / p.box_size) * p.box_size + y / p.box_size < p.max_cell_value
    omega
  · exfalso
    have : y / p.box_size < p.box_size :=
      (Nat.div_lt_iff_lt_mul hbs0).2 (by omega)
    omega

theorem ne_coord_of_ne {x y a b : Nat} (h : (a, b) ≠ (x, y)) :
    x ≠ a ∨ y ≠ b := by
  by_contra hc
  push_neg at hc
  exact h (by rw [← hc.1, ← hc.2])

theorem box_values_coords {bs n : Nat} (g : List (List (Option Nat)))
    (hbs : bs * bs = n) (hg : g.length = n) (hr : ∀ r ∈ g, r.length = n)
    {b : Nat} (hb : b < n) :
    ((g.drop ((b / bs) * bs)).take bs).flatMap
        (fun r => ((r.drop ((b % bs) * bs)).take bs).filterMap id)
      = (boxCoords bs b).filterMap
          (fun c => (g.getD c.1 []).getD c.2 none) := by
  have hbs0 : 0 < bs := by
    rcases Nat.eq_zero_or_pos bs with h0 | h0
    · rw [h0] at hbs
      omega
    · exact h0
  have hdb : b / bs < bs := (Nat.div_lt_iff_lt_mul hbs0).2 (by omega)
  have hmb : b % bs < bs := Nat.mod_lt b hbs0
  have hbx : (b / bs) * bs + bs ≤ g.length := by
    have h2 : (b / bs + 1) * bs ≤ bs * bs := Nat.mul_le_mul_right _ (by omega)
    rw [Nat.succ_mul] at h2
    omega
  rw [drop_take_eq_map_getD [] g _ _ hbx, flatMap_map']
  unfold boxCoords
  rw [filterMap_map']
  unfold allCells
  rw [filterMap_flatMap']
  refine flatMap_congr' (fun i hi => ?_)
  have hilt : i < bs := List.mem_range.1 hi
  have hrowmem : g.getD ((b / bs) * bs + i) [] ∈ g :=
    List.get?_mem (get?_eq_getD [] (by omega))
  have hrlen := hr _ hrowmem
  have hby : (b % bs) * bs + bs ≤ (g.getD ((b / bs) * bs + i) []).length := by
    have h2 : (b % bs + 1) * bs ≤ bs * bs := Nat.mul_le_mul_right _ (by omega)
    rw [Nat.succ_mul] at h2
    omega
  rw [drop_take_eq_map_getD none _ _ _ hby, filterMap_map', filterMap_map']
  rfl

theorem clear_inv_sq {p : SP} (hInv : p.Inv) (x y : Nat) : (p.clear x y).Inv := by
  obtain ⟨hbs, hg, hr, hrl, hcl, hbl, hcount, hrange, hrowN, hcolN, hboxN,
    hrowC, hcolC, hboxC⟩ := hInv
  cases hsome : p.get x y with
  | none =>
    rw [clear_of_empty_sq hsome]
    exact ⟨hbs, hg, hr, hrl, hcl, hbl, hcount, hrange, hrowN, hcolN, hboxN,
      hrowC, hcolC, hboxC⟩
  | some prev =>
    obtain ⟨hxg, hyg⟩ := get_some_bounds_sq hsome
    obtain ⟨hxn, hyn⟩ := get_some_lt_n_sq hg hr hsome
    have hbs0 : 0 < p.box_size := by
      rcases Nat.eq_zero_or_pos p.box_size with h0 | h0
      · rw [h0] at hbs
        omega
      · exact h0
    have hbnum : p.box_xy_to_num x y < p.max_cell_value :=
      boxnum_lt_n hbs hbs0 hxn hyn
    have hprev : (p.grid.getD x []).getD y none = some prev := hsome
    have hqmax : (p.clear x y).max_cell_value = p.max_cell_value := by
      unfold clear
      rw [hsome]
    have hqbs : (p.clear x y).box_size = p.box_size := by
      unfold clear
      rw [hsome]
    have hqgrid : (p.clear x y).grid = CP.setCell p.grid x y none := by
      unfold clear
      rw [hsome]
    have hqnum : (p.clear x y).num_empty_cells = p.num_empty_cells + 1 := by
      unfold clear
      rw [hsome]
    have hqrowl : (p.clear x y).allowed_values_for_row
        = p.allowed_values_for_row.set x (insert prev (p.rowCands x)) := by
      unfold clear
      rw [hsome]
    have hqcoll : (p.clear x y).allowed_values_for_col
        = p.allowed_values_for_col.set y (insert prev (p.colCands y)) := by
      unfold clear
      rw [hsome]
    have hqboxl : (p.clear x y).allowed_values_for_box
        = p.allowed_values_for_box.set (p.box_xy_to_num x y)
            (insert prev (p.boxCands (p.box_xy_to_num x y))) := by
      unfold clear
      rw [hsome]
    have hqget : ∀ a b : Nat, (p.clear x y).get a b
        = ((CP.setCell p.grid x y none).getD a []).getD b none := by
      intro a b
      rw [get_def_sq, hqgrid]
    have hQdim : (CP.setCell p.grid x y none).length = p.max_cell_value := by
      rw [CP.length_setCell]
      exact hg
    have hQrows : ∀ r ∈ CP.setCell p.grid x y none,
        r.length = p.max_cell_value := CP.mem_setCell_length hr
    have hqrowvals : ∀ x' : Nat, (p.clear x y).get_row_values x'
        = ((CP.setCell p.grid x y none).getD x' []).filterMap id := by
      intro x'
      unfold get_row_values
      rw [hqgrid]
    have hqcolvals : ∀ y' : Nat, (p.clear x y).get_column_values y'
        = (CP.setCell p.grid x y none).filterMap (fun r => r.getD y' none) := by
      intro y'
      unfold get_column_values
      rw [hqgrid]
    have hqboxvals : ∀ b : Nat, (p.clear x y).get_box_values b
        = (((CP.setCell p.grid x y none).drop ((b / p.box_size)
            * p.box_size)).take p.box_size).flatMap
          (fun r => ((r.drop ((b % p.box_size) * p.box_size)).take
              p.box_size).filterMap id) := by
      intro b
      unfold get_box_values box_num_to_xy
      rw [hqgrid, hqbs]
    have hqboxcoords : ∀ b : Nat, b < p.max_cell_value →
        (p.clear x y).get_box_values b
        = (boxCoords p.box_size b).filterMap
            (fun c => ((CP.setCell p.grid x y none).getD c.1 []).getD c.2
              none) := by
      intro b hb
      rw [hqboxvals b]
      exact box_values_coords _ hbs hQdim hQrows hb
    have hpboxcoords : ∀ b : Nat, b < p.max_cell_value →
        p.get_box_values b
        = (boxCoords p.box_size b).filterMap
            (fun c => (p.grid.getD c.1 []).getD c.2 none) := by
      intro b hb
      show (((p.grid.drop ((b / p.box_size) * p.box_size)).take
          p.box_size).flatMap
        (fun r => ((r.drop ((b % p.box_size) * p.box_size)).take
            p.box_size).filterMap id)) = _
      exact box_values_coords _ hbs hg hr hb
    have hrowperm := CP.rowvals_clear_perm hxg hyg hprev
    have hcolperm := CP.colvals_clear_perm hxg hyg hprev
    have hboxperm : List.Perm (p.get_box_values (p.box_xy_to_num x y))
        (prev :: (p.clear x y).get_box_values (p.box_xy_to_num x y)) := by
      rw [hpboxcoords _ hbnum, hqboxcoords _ hbnum]
      refine filterMap_update_perm (boxCoords_nodup _ _)
        (mem_boxCoords_self hbs0 (by omega) (by omega))
        (fun c hcmem hcne =>
          (CP.getCell_setCell_ne none (ne_coord_of_ne hcne)).symm)
        (CP.getCell_setCell_self none hxg hyg) hprev
    have hotherbox : ∀ b : Nat, b < p.max_cell_value →
        b ≠ p.box_xy_to_num x y →
        (p.clear x y).get_box_values b = p.get_box_values b := by
      intro b hb hbne
      rw [hpboxcoords b hb, hqboxcoords b hb]
      refine List.filterMap_congr (fun c hcmem => ?_)
      have hcb := boxnum_of_mem hbs0 (by omega) hcmem
      refine CP.getCell_setCell_ne none (ne_coord_of_ne (fun hcxy => ?_))
      apply hbne
      have h1 : c.1 = x := congrArg Prod.fst hcxy
      have h2 : c.2 = y := congrArg Prod.snd hcxy
      rw [h1, h2] at hcb
      exact hcb.1.symm
    have hrownd : (prev :: ((CP.setCell p.grid x y none).getD x
        []).filterMap id).Nodup :=
      hrowperm.nodup_iff.1 (hrowN x hxn)
    have hcolnd : (prev :: (CP.setCell p.grid x y none).filterMap
        (fun r => r.getD y none)).Nodup :=
      hcolperm.nodup_iff.1 (hcolN y hyn)
    have hboxnd : (prev :: (p.clear x y).get_box_values
        (p.box_xy_to_num x y)).Nodup :=
      hboxperm.nodup_iff.1 (hboxN _ hbnum)
    have hprevC : prev ∈ completeSet p.max_cell_value :=
      hrange x hxn y hyn prev hsome
    refine ⟨?_, ?_, ?_, ?_, ?_, ?_, ?_, ?_, ?_, ?_, ?_, ?_, ?_, ?_⟩
    · rw [hqbs, hqmax]
      exact hbs
    · rw [hqgrid, hqmax, CP.length_setCell]
      exact hg
    · rw [hqgrid, hqmax]
      exact hQrows
    · rw [hqrowl, hqmax, List.length_set]
      exact hrl
    · rw [hqcoll, hqmax, List.length_set]
      exact hcl
    · rw [hqboxl, hqmax, List.length_set]
      exact hbl
    · rw [hqnum, hqgrid, hcount]
      have hcc := CP.countEmptyG_setCell (a := some prev) none hxg hyg hprev
      simp at hcc
      omega
    · intro x' hx' y' hy' v hv
      rw [hqmax] at hx' hy'
      rw [hqget] at hv
      rw [hqmax]
      by_cases hc : x = x' ∧ y = y'
      · obtain ⟨rfl, rfl⟩ := hc
        rw [CP.getCell_setCell_self none hxg hyg] at hv
        exact Option.noConfusion hv
      · rw [not_and_or] at hc
        rw [CP.getCell_setCell_ne none hc] at hv
        exact hrange x' hx' y' hy' v hv
    · intro x' hx'
      rw [hqmax] at hx'
      rw [hqrowvals]
      by_cases hxx : x = x'
      · subst hxx
        exact (List.nodup_cons.1 hrownd).2
      · rw [CP.rowvals_setCell_ne p.grid y none hxx]
        exact hrowN x' hx'
    · intro y' hy'
      rw [hqmax] at hy'
      rw [hqcolvals]
      by_cases hyy : y = y'
      · subst hyy
        exact (List.nodup_cons.1 hcolnd).2
      · rw [CP.colvals_setCell_ne p.grid x none hyy]
        exact hcolN y' hy'
    · intro b hb
      rw [hqmax] at hb
      by_cases hbb : b = p.box_xy_to_num x y
      · subst hbb
        exact (List.nodup_cons.1 hboxnd).2
      · rw [hotherbox b hb hbb]
        exact hboxN b hb
    · intro x' hx'
      rw [hqmax] at hx'
      rw [hqmax, hqrowvals, show (p.clear x y).rowCands x'
        = (p.allowed_values_for_row.set x (insert prev (p.rowCands x))).getD
          x' ∅ from by rw [show (p.clear x y).rowCands x'
            = (p.clear x y).allowed_values_for_row.getD x' ∅ from rfl, hqrowl]]
      by_cases hxx : x = x'
      · subst hxx
        rw [getD_set_self ∅ _ _ _ (by omega)]
        have hfs : ((p.grid.getD x []).filterMap id).toFinset
            = insert prev (((CP.setCell p.grid x y none).getD x []).filterMap
                id).toFinset := by
          rw [List.toFinset_eq_of_perm _ _ hrowperm]
          simp
        have hnm : prev ∉ (((CP.setCell p.grid x y none).getD x []).filterMap
            id).toFinset := by
          rw [List.mem_toFinset]
          exact (List.nodup_cons.1 hrownd).1
        rw [hrowC x hxn]
        show insert prev (completeSet p.max_cell_value
          \ ((p.get_row_values x).toFinset)) = _
        unfold get_row_values
        rw [hfs]
        exact insert_sdiff_insert_self hprevC hnm
      · rw [getD_set_ne ∅ _ _ hxx, CP.rowvals_setCell_ne p.grid y none hxx]
        exact hrowC x' hx'
    · intro y' hy'
      rw [hqmax] at hy'
      rw [hqmax, hqcolvals, show (p.clear x y).colCands y'
        = (p.allowed_values_for_col.set y (insert prev (p.colCands y))).getD
          y' ∅ from by rw [show (p.clear x y).colCands y'
            = (p.clear x y).allowed_values_for_col.getD y' ∅ from rfl, hqcoll]]
      by_cases hyy : y = y'
      · subst hyy
        rw [getD_set_self ∅ _ _ _ (by omega)]
        have hfs : (p.grid.filterMap (fun r => r.getD y none)).toFinset
            = insert prev ((CP.setCell p.grid x y none).filterMap
                (fun r => r.getD y none)).toFinset := by
          rw [List.toFinset_eq_of_perm _ _ hcolperm]
          simp
        have hnm : prev ∉ ((CP.setCell p.grid x y none).filterMap
            (fun r => r.getD y none)).toFinset := by
          rw [List.mem_toFinset]
          exact (List.nodup_cons.1 hcolnd).1
        rw [hcolC y hyn]
        show insert prev (completeSet p.max_cell_value
          \ ((p.get_column_values y).toFinset)) = _
        unfold get_column_values
        rw [hfs]
        exact insert_sdiff_insert_self hprevC hnm
      · rw [getD_set_ne ∅ _ _ hyy, CP.colvals_setCell_ne p.grid x none hyy]
        exact hcolC y' hy'
    · intro b hb
      rw [hqmax] at hb
      rw [hqmax, show (p.clear x y).boxCands b
        = (p.allowed_values_for_box.set (p.box_xy_to_num x y)
            (insert prev (p.boxCands (p.box_xy_to_num x y)))).getD b ∅
        from by rw [show (p.clear x y).boxCands b
            = (p.clear x y).allowed_values_for_box.getD b ∅ from rfl, hqboxl]]
      by_cases hbb : b = p.box_xy_to_num x y
      · rw [hbb, getD_set_self ∅ _ _ _ (by omega)]
        have hfs : (p.get_box_values (p.box_xy_to_num x y)).toFinset
            = insert prev ((p.clear x y).get_box_values
                (p.box_xy_to_num x y)).toFinset := by
          rw [List.toFinset_eq_of_perm _ _ hboxperm]
          simp
        have hnm : prev ∉ ((p.clear x y).get_box_values
            (p.box_xy_to_num x y)).toFinset := by
          rw [List.mem_toFinset]
          exact (List.nodup_cons.1 hboxnd).1
        rw [hboxC _ hbnum]
        show insert prev (completeSet p.max_cell_value
          \ ((p.get_box_values (p.box_xy_to_num x y)).toFinset)) = _
        rw [hfs]
        exact insert_sdiff_insert_self hprevC hnm
      · rw [getD_set_ne ∅ _ _ (fun h => hbb h.symm), hotherbox b hb hbb]
        exact hboxC b hb

theorem write_ok_sq {p : SP} (hInv : p.Inv) {x y v : Nat}
    (hemp : p.get x y = none)
    (hall : v ∈ (p.rowCands x ∩ p.colCands y)
      ∩ p.boxCands (p.box_xy_to_num x y)) :
    (p.writeState x y v).Inv ∧
    (p.writeState x y v).get x y = some v ∧
    countEmptyG (p.writeState x y v).grid + 1 = countEmptyG p.grid ∧
    (p.writeState x y v).clear x y = p := by
  obtain ⟨hbs, hg, hr, hrl, hcl, hbl, hcount, hrange, hrowN, hcolN, hboxN,
    hrowC, hcolC, hboxC⟩ := hInv
  have hvrow : v ∈ p.rowCands x :=
    (Finset.mem_inter.1 (Finset.mem_inter.1 hall).1).1
  have hvcol : v ∈ p.colCands y :=
    (Finset.mem_inter.1 (Finset.mem_inter.1 hall).1).2
  have hvbox : v ∈ p.boxCands (p.box_xy_to_num x y) :=
    (Finset.mem_inter.1 hall).2
  have hxn : x < p.max_cell_value := by
    by_contra hc
    rw [show p.rowCands x = p.allowed_values_for_row.getD x ∅ from rfl,
      getD_oob ∅ (by omega)] at hvrow
    simp at hvrow
  have hyn : y < p.max_cell_value := by
    by_contra hc
    rw [show p.colCands y = p.allowed_values_for_col.getD y ∅ from rfl,
      getD_oob ∅ (by omega)] at hvcol
    simp at hvcol
  have hbs0 : 0 < p.box_size := by
    rcases Nat.eq_zero_or_pos p.box_size with h0 | h0
    · rw [h0] at hbs
      omega
    · exact h0
  have hbnum : p.box_xy_to_num x y < p.max_cell_value :=
    boxnum_lt_n hbs hbs0 hxn hyn
  have hxg : x < p.grid.length := by omega
  have hyg : y < (p.grid.getD x []).length := by
    have := hr _ (List.get?_mem (get?_eq_getD [] hxg))
    omega
  have hnone : (p.grid.getD x []).getD y none = none := hemp
  have hvC : v ∈ completeSet p.max_cell_value := by
    have := hrowC x hxn ▸ hvrow
    exact (Finset.mem_sdiff.1 this).1
  have hvnotrow : v ∉ (p.get_row_values x).toFinset := by
    have := hrowC x hxn ▸ hvrow
    exact (Finset.mem_sdiff.1 this).2
  have hvnotcol : v ∉ (p.get_column_values y).toFinset := by
    have := hcolC y hyn ▸ hvcol
    exact (Finset.mem_sdiff.1 this).2
  have hvnotbox : v ∉ (p.get_box_values (p.box_xy_to_num x y)).toFinset := by
    have := hboxC _ hbnum ▸ hvbox
    exact (Finset.mem_sdiff.1 this).2
  have hQdim : (CP.setCell p.grid x y (some v)).length = p.max_cell_value := by
    rw [CP.length_setCell]
    exact hg
  have hQrows : ∀ r ∈ CP.setCell p.grid x y (some v),
      r.length = p.max_cell_value := CP.mem_setCell_length hr
  have hwboxcoords : ∀ b : Nat, b < p.max_cell_value →
      (p.writeState x y v).get_box_values b
      = (boxCoords p.box_size b).filterMap
          (fun c => ((CP.setCell p.grid x y (some v)).getD c.1 []).getD c.2
            none) := by
    intro b hb
    show (((CP.setCell p.grid x y (some v)).drop ((b / p.box_size)
        * p.box_size)).take p.box_size).flatMap
      (fun r => ((r.drop ((b % p.box_size) * p.box_size)).take
          p.box_size).filterMap id) = _
    exact box_values_coords _ hbs hQdim hQrows hb
  have hpboxcoords : ∀ b : Nat, b < p.max_cell_value →
      p.get_box_values b
      = (boxCoords p.box_size b).filterMap
          (fun c => (p.grid.getD c.1 []).getD c.2 none) := by
    intro b hb
    show (((p.grid.drop ((b / p.box_size) * p.box_size)).take
        p.box_size).flatMap
      (fun r => ((r.drop ((b % p.box_size) * p.box_size)).take
          p.box_size).filterMap id)) = _
    exact box_values_coords _ hbs hg hr hb
  have hrowperm := CP.rowvals_write_perm v hxg hyg hnone
  have hcolperm := CP.colvals_write_perm v hxg hyg hnone
  have hboxperm : List.Perm
      ((p.writeState x y v).get_box_values (p.box_xy_to_num x y))
      (v :: p.get_box_values (p.box_xy_to_num x y)) := by
    rw [hwboxcoords _ hbnum, hpboxcoords _ hbnum]
    refine filterMap_update_perm (boxCoords_nodup _ _)
      (mem_boxCoords_self hbs0 (by omega) (by omega))
      (fun c hcmem hcne =>
        CP.getCell_setCell_ne (some v) (ne_coord_of_ne hcne))
      hnone (CP.getCell_setCell_self (some v) hxg hyg)
  have hotherbox : ∀ b : Nat, b < p.max_cell_value →
      b ≠ p.box_xy_to_num x y →
      (p.writeState x y v).get_box_values b = p.get_box_values b := by
    intro b hb hbne
    rw [hwboxcoords b hb, hpboxcoords b hb]
    refine List.filterMap_congr (fun c hcmem => ?_)
    have hcb := boxnum_of_mem hbs0 (by omega) hcmem
    refine CP.getCell_setCell_ne (some v) (ne_coord_of_ne (fun hcxy => ?_))
    apply hbne
    have h1 : c.1 = x := congrArg Prod.fst hcxy
    have h2 : c.2 = y := congrArg Prod.snd hcxy
    rw [h1, h2] at hcb
    exact hcb.1.symm
  have hrownd : (((CP.setCell p.grid x y (some v)).getD x
      []).filterMap id).Nodup := by
    refine hrowperm.nodup_iff.2 (List.nodup_cons.2 ⟨?_, hrowN x hxn⟩)
    rw [← List.mem_toFinset]
    exact hvnotrow
  have hcolnd : ((CP.setCell p.grid x y (some v)).filterMap
      (fun r => r.getD y none)).Nodup := by
    refine hcolperm.nodup_iff.2 (List.nodup_cons.2 ⟨?_, hcolN y hyn⟩)
    rw [← List.mem_toFinset]
    exact hvnotcol
  have hboxnd : ((p.writeState x y v).get_box_values
      (p.box_xy_to_num x y)).Nodup := by
    refine hboxperm.nodup_iff.2 (List.nodup_cons.2 ⟨?_, hboxN _ hbnum⟩)
    rw [← List.mem_toFinset]
    exact hvnotbox
  have hrowfs : (((CP.setCell p.grid x y (some v)).getD x
      []).filterMap id).toFinset
      = insert v (p.get_row_values x).toFinset := by
    rw [List.toFinset_eq_of_perm _ _ hrowperm, List.toFinset_cons]
    rfl
  have hcolfs : ((CP.setCell p.grid x y (some v)).filterMap
      (fun r => r.getD y none)).toFinset
      = insert v (p.get_column_values y).toFinset := by
    rw [List.toFinset_eq_of_perm _ _ hcolperm, List.toFinset_cons]
    rfl
  have hboxfs : ((p.writeState x y v).get_box_values
      (p.box_xy_to_num x y)).toFinset
      = insert v (p.get_box_values (p.box_xy_to_num x y)).toFinset := by
    rw [List.toFinset_eq_of_perm _ _ hboxperm, List.toFinset_cons]
  have hcc := CP.countEmptyG_setCell (a := none) (some v) hxg hyg hnone
  simp at hcc
  refine ⟨⟨?_, ?_, ?_, ?_, ?_, ?_, ?_, ?_, ?_, ?_, ?_, ?_, ?_, ?_⟩,
    ?_, ?_, ?_⟩
  · exact hbs
  · show (CP.setCell p.grid x y (some v)).length = p.max_cell_value
    exact hQdim
  · exact hQrows
  · show (p.allowed_values_for_row.set x ((p.rowCands x).erase v)).length
      = p.max_cell_value
    rw [List.length_set]
    exact hrl
  · show (p.allowed_values_for_col.set y ((p.colCands y).erase v)).length
      = p.max_cell_value
    rw [List.length_set]
    exact hcl
  · show (p.allowed_values_for_box.set (p.box_xy_to_num x y)
        ((p.boxCands (p.box_xy_to_num x y)).erase v)).length
      = p.max_cell_value
    rw [List.length_set]
    exact hbl
  · show p.num_empty_cells - 1
      = (countEmptyG (CP.setCell p.grid x y (some v)) : Int)
    rw [hcount]
    omega
  · intro x' hx' y' hy' w hw
    by_cases hc : x = x' ∧ y = y'
    · obtain ⟨rfl, rfl⟩ := hc
      have hself : (p.writeState x y v).get x y = some v :=
        CP.getCell_setCell_self (some v) hxg hyg
      rw [hself] at hw
      obtain rfl : v = w := by simpa using hw
      exact hvC
    · rw [not_and_or] at hc
      have hne : (p.writeState x y v).get x' y' = p.get x' y' :=
        CP.getCell_setCell_ne (some v) hc
      rw [hne] at hw
      exact hrange x' hx' y' hy' w hw
  · intro x' hx'
    show (((CP.setCell p.grid x y (some v)).getD x' []).filterMap id).Nodup
    by_cases hxx : x = x'
    · subst hxx
      exact hrownd
    · rw [CP.rowvals_setCell_ne p.grid y (some v) hxx]
      exact hrowN x' hx'
  · intro y' hy'
    show ((CP.setCell p.grid x y (some v)).filterMap
        (fun r => r.getD y' none)).Nodup
    by_cases hyy : y = y'
    · subst hyy
      exact hcolnd
    · rw [CP.colvals_setCell_ne p.grid x (some v) hyy]
      exact hcolN y' hy'
  · intro b hb
    by_cases hbb : b = p.box_xy_to_num x y
    · rw [hbb]
      exact hboxnd
    · rw [hotherbox b hb hbb]
      exact hboxN b hb
  · intro x' hx'
    show (p.allowed_values_for_row.set x ((p.rowCands x).erase v)).getD x' ∅
        = completeSet p.max_cell_value
          \ (((CP.setCell p.grid x y (some v)).getD x' []).filterMap
              id).toFinset
    by_cases hxx : x = x'
    · subst hxx
      rw [getD_set_self ∅ _ _ _ (by omega), hrowfs, hrowC x hxn,
        Finset.sdiff_insert]
    · rw [getD_set_ne ∅ _ _ hxx, CP.rowvals_setCell_ne p.grid y (some v) hxx]
      exact hrowC x' hx'
  · intro y' hy'
    show (p.allowed_values_for_col.set y ((p.colCands y).erase v)).getD y' ∅
        = completeSet p.max_cell_value
          \ ((CP.setCell p.grid x y (some v)).filterMap
              (fun r => r.getD y' none)).toFinset
    by_cases hyy : y = y'
    · subst hyy
      rw [getD_set_self ∅ _ _ _ (by omega), hcolfs, hcolC y hyn,
        Finset.sdiff_insert]
    · rw [getD_set_ne ∅ _ _ hyy, CP.colvals_setCell_ne p.grid x (some v) hyy]
      exact hcolC y' hy'
  · intro b hb
    show (p.allowed_values_for_box.set (p.box_xy_to_num x y)
        ((p.boxCands (p.box_xy_to_num x y)).erase v)).getD b ∅
        = completeSet p.max_cell_value
          \ ((p.writeState x y v).get_box_values b).toFinset
    by_cases hbb : b = p.box_xy_to_num x y
    · rw [hbb, getD_set_self ∅ _ _ _ (by omega), hboxfs, hboxC _ hbnum,
        Finset.sdiff_insert]
    · rw [getD_set_ne ∅ _ _ (fun h => hbb h.symm), hotherbox b hb hbb]
      exact hboxC b hb
  · exact CP.getCell_setCell_self (some v) hxg hyg
  · show countEmptyG (CP.setCell p.grid x y (some v)) + 1 = countEmptyG p.grid
    omega
  · have hgetv : (p.writeState x y v).get x y = some v :=
      CP.getCell_setCell_self (some v) hxg hyg
    unfold clear
    rw [hgetv]
    have e1 : CP.setCell (p.writeState x y v).grid x y none = p.grid := by
      show CP.setCell (CP.setCell p.grid x y (some v)) x y none = p.grid
      unfold CP.setCell
      have h1 : ((p.grid.getD x []).set y (some v)).set y none
          = p.grid.getD x [] := by
        rw [List.set_set]
        exact set_get?_self _ _ (by rw [get?_eq_getD none hyg, hnone])
      rw [getD_set_self [] _ _ _ hxg, h1, List.set_set,
        set_get?_self _ _ (get?_eq_getD [] hxg)]
    have e2 : (p.writeState x y v).num_empty_cells + 1 = p.num_empty_cells := by
      show p.num_empty_cells - 1 + 1 = p.num_empty_cells
      omega
    have e3 : (p.writeState x y v).allowed_values_for_row.set x
        (insert v ((p.writeState x y v).rowCands x))
        = p.allowed_values_for_row := by
      show (p.allowed_values_for_row.set x ((p.rowCands x).erase v)).set x
        (insert v ((p.writeState x y v).rowCands x)) = _
      have hre : (p.writeState x y v).rowCands x = (p.rowCands x).erase v := by
        show (p.allowed_values_for_row.set x ((p.rowCands x).erase v)).getD x ∅
          = (p.rowCands x).erase v
        rw [getD_set_self ∅ _ _ _ (by omega)]
      rw [hre, Finset.insert_erase hvrow, List.set_set]
      exact set_get?_self _ _ (get?_eq_getD ∅ (by omega))
    have e4 : (p.writeState x y v).allowed_values_for_col.set y
        (insert v ((p.writeState x y v).colCands y))
        = p.allowed_values_for_col := by
      show (p.allowed_values_for_col.set y ((p.colCands y).erase v)).set y
        (insert v ((p.writeState x y v).colCands y)) = _
      have hce : (p.writeState x y v).colCands y = (p.colCands y).erase v := by
        show (p.allowed_values_for_col.set y ((p.colCands y).erase v)).getD y ∅
          = (p.colCands y).erase v
        rw [getD_set_self ∅ _ _ _ (by omega)]
      rw [hce, Finset.insert_erase hvcol, List.set_set]
      exact set_get?_self _ _ (get?_eq_getD ∅ (by omega))
    have hbnum' : (p.writeState x y v).box_xy_to_num x y
        = p.box_xy_to_num x y := rfl
    have e5 : (p.writeState x y v).allowed_values_for_box.set
        ((p.writeState x y v).box_xy_to_num x y)
        (insert v ((p.writeState x y v).boxCands
          ((p.writeState x y v).box_xy_to_num x y)))
        = p.allowed_values_for_box := by
      rw [hbnum']
      show (p.allowed_values_for_box.set (p.box_xy_to_num x y)
          ((p.boxCands (p.box_xy_to_num x y)).erase v)).set
        (p.box_xy_to_num x y)
        (insert v ((p.writeState x y v).boxCands (p.box_xy_to_num x y))) = _
      have hbe : (p.writeState x y v).boxCands (p.box_xy_to_num x y)
          = (p.boxCands (p.box_xy_to_num x y)).erase v := by
        show (p.allowed_values_for_box.set (p.box_xy_to_num x y)
            ((p.boxCands (p.box_xy_to_num x y)).erase v)).getD
          (p.box_xy_to_num x y) ∅
          = (p.boxCands (p.box_xy_to_num x y)).erase v
        rw [getD_set_self ∅ _ _ _ (by omega)]
      rw [hbe, Finset.insert_erase hvbox, List.set_set]
      exact set_get?_self _ _ (get?_eq_getD ∅ (by omega))
    exact ext_sq rfl rfl e1 e2 e3 e4 e5

theorem mem_allowed_iff_inter_sq {p : SP} {x y v : Nat}
    (hemp : p.get x y = none) :
    v ∈ p.get_allowed_values x y ↔
      v ∈ (p.rowCands x ∩ p.colCands y)
        ∩ p.boxCands (p.box_xy_to_num x y) := by
  unfold get_allowed_values
  rw [hemp]

theorem set_of_empty_allowed_sq {p : SP} (hInv : p.Inv) {x y v : Nat}
    (hemp : p.get x y = none) (hall : v ∈ p.get_allowed_values x y) :
    p.set x y v = .ok (p.writeState x y v) := by
  obtain ⟨hbs, hg, hr, hrl, hcl, hbl, hcount, hrange, hrowN, hcolN, hboxN,
    hrowC, hcolC, hboxC⟩ := hInv
  have hallI : v ∈ (p.rowCands x ∩ p.colCands y)
      ∩ p.boxCands (p.box_xy_to_num x y) :=
    (mem_allowed_iff_inter_sq hemp).1 hall
  have hvrow : v ∈ p.rowCands x :=
    (Finset.mem_inter.1 (Finset.mem_inter.1 hallI).1).1
  have hxn : x < p.max_cell_value := by
    by_contra hc
    rw [show p.rowCands x = p.allowed_values_for_row.getD x ∅ from rfl,
      getD_oob ∅ (by omega)] at hvrow
    simp at hvrow
  have hvC : v ∈ completeSet p.max_cell_value := by
    have := hrowC x hxn ▸ hvrow
    exact (Finset.mem_sdiff.1 this).1
  have h1 : ¬(v < MIN_CELL_VALUE ∨ v > p.max_cell_value) := by
    have := Finset.mem_Icc.1 hvC
    unfold MIN_CELL_VALUE
    omega
  have h2 : ¬(p.get x y = some v) := by
    rw [hemp]
    exact fun h => Option.noConfusion h
  unfold set
  rw [if_neg h2, if_neg h1]
  simp only [hemp, Option.isSome_none, Bool.false_eq_true, if_false]
  rw [if_pos hall]

theorem is_valid_of_inv {p : SP} (hInv : p.Inv) : p.is_valid = true := by
  obtain ⟨hbs, hg, hr, hrl, hcl, hbl, hcount, hrange, hrowN, hcolN, hboxN,
    hrowC, hcolC, hboxC⟩ := hInv
  unfold is_valid
  rw [Bool.and_eq_true, Bool.and_eq_true]
  refine ⟨?_, ?_, ?_⟩
  · rw [List.all_eq_true]
    intro b hb
    rw [List.mem_range] at hb
    simpa using hboxN b hb
  · rw [List.all_eq_true]
    intro a ha
    rw [List.mem_range] at ha
    simpa using hrowN a ha
  · rw [List.all_eq_true]
    intro a ha
    rw [List.mem_range] at ha
    simpa using hcolN a ha

theorem no_empty_of_count0 {g : List (List (Option Nat))}
    (h0 : countEmptyG g = 0) : ∀ r ∈ g, ∀ o ∈ r, o ≠ none := by
  intro r hr o ho
  unfold countEmptyG at h0
  rw [List.sum_eq_zero_iff] at h0
  have hc : r.countP (fun o => o = none) = 0 :=
    h0 _ (List.mem_map_of_mem _ hr)
  rw [List.countP_eq_zero] at hc
  intro hno
  have := hc o ho
  rw [hno] at this
  simp at this

theorem is_solved_of_count0 {p : SP} (hInv : p.Inv)
    (h0 : countEmptyG p.grid = 0) : p.is_solved = true := by
  unfold is_solved
  rw [Bool.and_eq_true]
  refine ⟨is_valid_of_inv hInv, ?_⟩
  obtain ⟨hbs, hg, hr, hrl, hcl, hbl, hcount, hrange, hrowN, hcolN, hboxN,
    hrowC, hcolC, hboxC⟩ := hInv
  rw [List.all_eq_true]
  intro c hc
  obtain ⟨hc1, hc2⟩ := mem_allCells.1 hc
  have hrmem : p.grid.getD c.1 [] ∈ p.grid :=
    List.get?_mem (get?_eq_getD [] (by omega))
  have hlen : (p.grid.getD c.1 []).length = p.max_cell_value := hr _ hrmem
  have homem : (p.grid.getD c.1 []).getD c.2 none ∈ p.grid.getD c.1 [] :=
    List.get?_mem (get?_eq_getD none (by omega))
  have hne := no_empty_of_count0 h0 _ hrmem _ homem
  show ((p.grid.getD c.1 []).getD c.2 none).isSome = true
  cases hoc : (p.grid.getD c.1 []).getD c.2 none with
  | none => exact absurd hoc (by rw [hoc] at hne; exact fun _ => hne rfl)
  | some w => rfl

theorem find_empty_some {p : SP} (hInv : p.Inv)
    (h0 : countEmptyG p.grid ≠ 0) :
    ∃ x y : Nat, p.find_empty_cell = some (x, y) ∧ p.get x y = none ∧
      x < p.max_cell_value ∧ y < p.max_cell_value := by
  obtain ⟨hbs, hg, hr, hrl, hcl, hbl, hcount, hrange, hrowN, hcolN, hboxN,
    hrowC, hcolC, hboxC⟩ := hInv
  cases hf : p.find_empty_cell with
  | none =>
    exfalso
    apply h0
    unfold find_empty_cell at hf
    rw [List.find?_eq_none] at hf
    unfold countEmptyG
    rw [List.sum_eq_zero_iff]
    intro k hk
    rw [List.mem_map] at hk
    obtain ⟨r, hrmem, hrk⟩ := hk
    obtain ⟨i, hri⟩ := List.get?_of_mem hrmem
    rw [← hrk, List.countP_eq_zero]
    intro o ho
    obtain ⟨j, hoj⟩ := List.get?_of_mem ho
    have hilt : i < p.grid.length := by
      by_contra hcon
      rw [List.get?_eq_none.2 (by omega)] at hri
      exact Option.noConfusion hri
    have hjlt : j < r.length := by
      by_contra hcon
      rw [List.get?_eq_none.2 (by omega)] at hoj
      exact Option.noConfusion hoj
    have hin : i < p.max_cell_value := by omega
    have hjn : j < p.max_cell_value := by
      have := hr r hrmem
      omega
    have hcmem : ((i : Nat), (j : Nat)) ∈ allCells p.max_cell_value :=
      mem_allCells.2 ⟨hin, hjn⟩
    have hne := hf _ hcmem
    simp only [decide_eq_true_eq] at hne
    have hget : p.get i j = o := by
      show (p.grid.getD i []).getD j none = o
      rw [getD_eq_of_get? [] hri, getD_eq_of_get? none hoj]
    rw [hget] at hne
    simp only [decide_eq_true_eq]
    intro hcontr
    rw [hcontr] at hne
    exact hne rfl
  | some c =>
    refine ⟨c.1, c.2, ?_, ?_, ?_, ?_⟩
    · rfl
    · have := List.find?_some hf
      simpa using this
    · have hm := List.mem_of_find?_eq_some hf
      exact (mem_allCells.1 hm).1
    · have hm := List.mem_of_find?_eq_some hf
      exact (mem_allCells.1 hm).2

end SP

/-! ### Backtracking-solver correctness -/

theorem tryVals_cons (R : SP → BTRes) (x y : Nat) (p : SP) (v : Nat)
    (rest : List Nat) :
    tryVals R x y p (v :: rest)
    = match p.set x y v with
      | .error _ => .fail
      | .ok p2 =>
        match R p2 with
        | .ok true p' => .ok true p'
        | .ok false p' => tryVals R x y (p'.clear x y) rest
        | .fail => .fail := rfl

theorem solveBT_succ (fuel : Nat) (p : SP) :
    solveBT (fuel + 1) p
    = if p.num_empty_cells = 0 then .ok true p
      else match p.find_empty_cell with
        | none => .fail
        | some (x, y) =>
          tryVals (solveBT fuel) x y p
            ((p.get_allowed_values x y).sort (· ≤ ·)) := rfl

theorem tryVals_spec {fuel : Nat}
    (IH : ∀ q : SP, q.Inv → countEmptyG q.grid < fuel →
      ∃ b q', solveBT fuel q = .ok b q' ∧ q'.Inv ∧
        (b = true → q'.is_solved = true) ∧ (b = false → q' = q)) :
    ∀ (l : List Nat) (p : SP) (x y : Nat), p.Inv → p.get x y = none →
      countEmptyG p.grid < fuel + 1 →
      (∀ v ∈ l, v ∈ p.get_allowed_values x y) →
      ∃ b p', tryVals (solveBT fuel) x y p l = .ok b p' ∧ p'.Inv ∧
        (b = true → p'.is_solved = true) ∧ (b = false → p' = p)
  | [], p, x, y, hInv, hemp, hcnt, hmem =>
    ⟨false, p, rfl, hInv, fun h => Bool.noConfusion h, fun _ => rfl⟩
  | v :: rest, p, x, y, hInv, hemp, hcnt, hmem => by
    have hset : p.set x y v = .ok (p.writeState x y v) :=
      SP.set_of_empty_allowed_sq hInv hemp (hmem v (List.mem_cons_self v rest))
    obtain ⟨hInv2, hget2, hcnt2, hres⟩ :=
      SP.write_ok_sq hInv hemp ((SP.mem_allowed_iff_inter_sq hemp).1
        (hmem v (List.mem_cons_self v rest)))
    have hu1 : tryVals (solveBT fuel) x y p (v :: rest)
        = match solveBT fuel (p.writeState x y v) with
          | .ok true p' => BTRes.ok true p'
          | .ok false p' => tryVals (solveBT fuel) x y (p'.clear x y) rest
          | .fail => BTRes.fail := by
      rw [tryVals_cons, hset]
    obtain ⟨b, q', heq, hq'Inv, htrue, hfalse⟩ :=
      IH (p.writeState x y v) hInv2 (by omega)
    cases b with
    | true =>
      refine ⟨true, q', ?_, hq'Inv, htrue, fun h => Bool.noConfusion h⟩
      rw [hu1, heq]
    | false =>
      have hq' : q' = p.writeState x y v := hfalse rfl
      have hclr : q'.clear x y = p := by
        rw [hq']
        exact hres
      obtain ⟨b2, p2, heq2, hInv2', htrue2, hfalse2⟩ :=
        tryVals_spec IH rest p x y hInv hemp hcnt
          (fun w hw => hmem w (List.mem_cons_of_mem v hw))
      refine ⟨b2, p2, ?_, hInv2', htrue2, hfalse2⟩
      rw [hu1, heq]
      show tryVals (solveBT fuel) x y (q'.clear x y) rest = BTRes.ok b2 p2
      rw [hclr]
      exact heq2

theorem solveBT_spec : ∀ (fuel : Nat) (p : SP), p.Inv →
    countEmptyG p.grid < fuel →
    ∃ b p', solveBT fuel p = .ok b p' ∧ p'.Inv ∧
      (b = true → p'.is_solved = true) ∧ (b = false → p' = p)
  | 0, p, _, hcnt => absurd hcnt (by omega)
  | fuel + 1, p, hInv, hcnt => by
    have hcount : p.num_empty_cells = (countEmptyG p.grid : Int) :=
      hInv.2.2.2.2.2.2.1
    by_cases h0 : p.num_empty_cells = 0
    · have hc0 : countEmptyG p.grid = 0 := by
        rw [hcount] at h0
        exact_mod_cast h0
      refine ⟨true, p, ?_, hInv,
        fun _ => SP.is_solved_of_count0 hInv hc0, fun h => Bool.noConfusion h⟩
      rw [solveBT_succ, if_pos h0]
    · have hc0 : countEmptyG p.grid ≠ 0 := by
        intro hcon
        apply h0
        rw [hcount, hcon]
        rfl
      obtain ⟨x, y, hfind, hemp, hxn, hyn⟩ := SP.find_empty_some hInv hc0
      obtain ⟨b, p', heq, hInv', htrue, hfalse⟩ :=
        tryVals_spec (solveBT_spec fuel)
          ((p.get_allowed_values x y).sort (· ≤ ·)) p x y hInv hemp
          (by omega) (fun w hw => (Finset.mem_sort _).1 hw)
      refine ⟨b, p', ?_, hInv', htrue, hfalse⟩
      rw [solveBT_succ, if_neg h0, hfind]
      exact heq

/-! ### MathDoku lemmas -/

theorem CP.is_puzzle_valid_of_inv {p : CP} (hInv : p.Inv) :
    p.is_puzzle_valid = true := by
  obtain ⟨hg, hr, hrl, hcl, hcount, hrange, hrowN, hcolN, hrowC, hcolC⟩ :=
    hInv
  unfold CP.is_puzzle_valid
  rw [Bool.and_eq_true]
  constructor
  · rw [List.all_eq_true]
    intro a ha
    rw [List.mem_range] at ha
    simpa using hrowN a ha
  · rw [List.all_eq_true]
    intro a ha
    rw [List.mem_range] at ha
    simpa using hcolN a ha

theorem evalOp_ne_none {l : List Int} : ∀ {o : CageOp},
    (o = CageOp.sub ∨ o = CageOp.div ∨ o = CageOp.mul → l ≠ []) →
    (o = CageOp.eq → l.length = 1) →
    (o = CageOp.div → ∀ t ∈ l, t ≠ 0) →
    evalOp o l ≠ none
  | .add, _, _, _ => by
    simp [evalOp]
  | .sub, h1, _, _ => by
    cases l with
    | nil => exact absurd rfl (h1 (Or.inl rfl))
    | cons a rest => simp [evalOp]
  | .div, h1, _, h3 => by
    cases l with
    | nil => exact absurd rfl (h1 (Or.inr (Or.inl rfl)))
    | cons a rest =>
      have hz : rest.any (fun t => t = 0) = false := by
        rw [List.any_eq_false]
        intro t ht
        simpa using h3 rfl t (List.mem_cons_of_mem a ht)
      simp [evalOp, hz]
  | .mul, h1, _, _ => by
    cases l with
    | nil => exact absurd rfl (h1 (Or.inr (Or.inr rfl)))
    | cons a rest => simp [evalOp]
  | .eq, _, h2, _ => by
    have hl := h2 rfl
    cases l with
    | nil => simp at hl
    | cons a rest =>
      cases rest with
      | nil => simp [evalOp]
      | cons b r2 => simp at hl

theorem sortDesc_length (l : List Nat) : (sortDesc l).length = l.length :=
  List.length_insertionSort _ _

theorem mem_sortDesc {l : List Nat} {w : Nat} :
    w ∈ sortDesc l ↔ w ∈ l :=
  (List.perm_insertionSort _ _).mem_iff

namespace MD

theorem cageCheck_ne_none {m : MD}
    (hpos : ∀ x, x < m.base.grid.length →
      ∀ y, y < (m.base.grid.getD x []).length → m.base.get x y ≠ some 0)
    {i : Nat} {cage : Int × CageOp × Nat}
    (heq1 : cage.2.1 = CageOp.eq → cage.2.2 = 1)
    (hne0 : cage.2.1 ≠ CageOp.add → 1 ≤ cage.2.2) :
    m.cageCheck i cage ≠ none := by
  unfold cageCheck
  by_cases hlen : (m.cageVals i).length = cage.2.2
  · rw [if_pos hlen]
    have hvpos : ∀ w ∈ m.cageVals i, 1 ≤ w := by
      intro w hw
      unfold cageVals at hw
      rw [List.mem_filterMap] at hw
      obtain ⟨c, hcmem, hgc⟩ := hw
      obtain ⟨hxb, hyb⟩ := CP.get_some_bounds hgc
      have hne := hpos c.1 hxb c.2 hyb
      rcases Nat.eq_zero_or_pos w with h0 | h0
      · rw [h0] at hgc
        exact absurd hgc hne
      · exact h0
    have hmaplen : ((sortDesc (m.cageVals i)).map
        (fun w => Int.ofNat w)).length = cage.2.2 := by
      rw [List.length_map, sortDesc_length, hlen]
    have hintpos : ∀ t ∈ (sortDesc (m.cageVals i)).map
        (fun w => Int.ofNat w), t ≠ 0 := by
      intro t ht
      rw [List.mem_map] at ht
      obtain ⟨w, hwmem, hwt⟩ := ht
      have hwt' : Int.ofNat w = t := hwt
      rw [← hwt']
      have h1 := hvpos w (mem_sortDesc.1 hwmem)
      show (w : Int) ≠ 0
      omega
    cases hev : evalOp cage.2.1 ((sortDesc (m.cageVals i)).map
        (fun w => Int.ofNat w)) with
    | none =>
      refine absurd hev (evalOp_ne_none ?_ ?_ ?_)
      · intro hop hnil
        have hA : cage.2.1 ≠ CageOp.add := by
          rcases hop with h | h | h
          · rw [h]
            intro hc
            exact CageOp.noConfusion hc
          · rw [h]
            intro hc
            exact CageOp.noConfusion hc
          · rw [h]
            intro hc
            exact CageOp.noConfusion hc
        have h1le := hne0 hA
        rw [hnil] at hmaplen
        simp at hmaplen
        omega
      · intro hop
        rw [hmaplen]
        exact heq1 hop
      · intro hop
        exact hintpos
    | some r =>
      intro hc
      exact Option.noConfusion hc
  · rw [if_neg hlen]
    intro hc
    exact Option.noConfusion hc

theorem cagesValid_ne_none {m : MD} :
    ∀ (l : List (Int × CageOp × Nat)) (k : Nat),
      (∀ j (hj : j < l.length), m.cageCheck (k + j) (l.get ⟨j, hj⟩) ≠ none) →
      m.cagesValid k l ≠ none
  | [], k, _ => by
    intro hc
    exact Option.noConfusion hc
  | cage :: rest, k, hnn => by
    simp only [cagesValid]
    cases hC : m.cageCheck k cage with
    | none => exact absurd hC (hnn 0 (by simp))
    | some b =>
      cases b with
      | false =>
        intro hc
        exact Option.noConfusion hc
      | true =>
        show m.cagesValid (k + 1) rest ≠ none
        refine cagesValid_ne_none rest (k + 1) ?_
        intro j hj
        have hh := hnn (j + 1) (by
          simp only [List.length_cons]
          omega)
        have harith : k + (j + 1) = (k + 1) + j := by omega
        rw [harith] at hh
        exact hh

theorem cagesValid_false_iff {m : MD} :
    ∀ (l : List (Int × CageOp × Nat)) (k : Nat),
      (∀ j (hj : j < l.length), m.cageCheck (k + j) (l.get ⟨j, hj⟩) ≠ none) →
      (m.cagesValid k l = some false ↔
        ∃ j, ∃ hj : j < l.length,
          m.cageCheck (k + j) (l.get ⟨j, hj⟩) = some false)
  | [], k, _ => by
    simp only [cagesValid]
    constructor
    · intro hc
      exact Bool.noConfusion (Option.some.inj hc)
    · rintro ⟨j, hj, -⟩
      exact absurd hj (by simp)
  | cage :: rest, k, hnn => by
    simp only [cagesValid]
    cases hC : m.cageCheck k cage with
    | none => exact absurd hC (hnn 0 (by simp))
    | some b =>
      cases b with
      | false =>
        constructor
        · intro _
          exact ⟨0, by simp, hC⟩
        · intro _
          rfl
      | true =>
        have hshift : ∀ j (hj : j < rest.length),
            m.cageCheck ((k + 1) + j) (rest.get ⟨j, hj⟩) ≠ none := by
          intro j hj
          have hh := hnn (j + 1) (by
            simp only [List.length_cons]
            omega)
          have harith : k + (j + 1) = (k + 1) + j := by omega
          rw [harith] at hh
          exact hh
        have hrec := cagesValid_false_iff rest (k + 1) hshift
        constructor
        · intro hc
          obtain ⟨j, hj, hcc⟩ := hrec.1 hc
          refine ⟨j + 1, by
            simp only [List.length_cons]
            omega, ?_⟩
          have harith : k + (j + 1) = (k + 1) + j := by omega
          rw [harith]
          exact hcc
        · rintro ⟨j, hj, hcc⟩
          cases j with
          | zero =>
            have hcc' : m.cageCheck k cage = some false := hcc
            rw [hC] at hcc'
            exact absurd (Option.some.inj hcc') (fun h => Bool.noConfusion h)
          | succ j' =>
            have hj' : j' < rest.length := by
              simp only [List.length_cons] at hj
              omega
            refine hrec.2 ⟨j', hj', ?_⟩
            have harith : (k + 1) + j' = k + (j' + 1) := by omega
            rw [harith]
            exact hcc

theorem cageCheck_false_iff {m : MD} {i : Nat} {cage : Int × CageOp × Nat}
    (hnn : m.cageCheck i cage ≠ none) :
    m.cageCheck i cage = some false ↔
      ((m.cageVals i).length = cage.2.2 ∧
        evalOp cage.2.1 ((sortDesc (m.cageVals i)).map (fun w => Int.ofNat w))
          ≠ some cage.1) := by
  unfold cageCheck at hnn
  unfold cageCheck
  by_cases hlen : (m.cageVals i).length = cage.2.2
  · rw [if_pos hlen] at hnn
    rw [if_pos hlen]
    cases hev : evalOp cage.2.1 ((sortDesc (m.cageVals i)).map
        (fun w => Int.ofNat w)) with
    | none =>
      rw [hev] at hnn
      exact absurd rfl hnn
    | some r =>
      constructor
      · intro hc
        refine ⟨hlen, ?_⟩
        have hd : (decide (cage.1 = r)) = false := Option.some.inj hc
        rw [decide_eq_false_iff_not] at hd
        intro hcc
        exact hd (Option.some.inj hcc).symm
      · rintro ⟨-, hne⟩
        show some (decide (cage.1 = r)) = some false
        have hd : ¬(cage.1 = r) := fun h => hne (by rw [h])
        rw [decide_eq_false_iff_not.2 hd]
  · rw [if_neg hlen]
    constructor
    · intro hc
      exact absurd (Option.some.inj hc) (fun h => Bool.noConfusion h)
    · rintro ⟨hc, -⟩
      exact absurd hc hlen

theorem valid_true_parts {m : MD} (h : m.is_puzzle_valid = some true) :
    m.base.is_puzzle_valid = true ∧ m.cagesValid 0 m.cages = some true := by
  unfold is_puzzle_valid at h
  by_cases hb : m.base.is_puzzle_valid = true
  · rw [if_pos hb] at h
    exact ⟨hb, h⟩
  · rw [if_neg hb] at h
    exact absurd (Option.some.inj h) (fun hc => Bool.noConfusion hc)

theorem valid_ne_none {m : MD}
    (h : m.cagesValid 0 m.cages ≠ none) : m.is_puzzle_valid ≠ none := by
  unfold is_puzzle_valid
  by_cases hb : m.base.is_puzzle_valid = true
  · rw [if_pos hb]
    exact h
  · rw [if_neg hb]
    intro hc
    exact Option.noConfusion hc

end MD

/-- C6: for every consistent grid with side length at most 25, the flat
serialized string has length exactly N², and parsing it into a freshly
constructed grid of the same size reproduces the grid exactly. -/
theorem C6_string_roundtrip {g : CP} (hInv : g.Inv)
    (hle : g.max_cell_value ≤ MAX_PUZZLE_SIZE) :
    (g.toFlatString).length = g.num_cells ∧
    CP.init_puzzle_from_str (CP.fresh g.max_cell_value) (g.toFlatString)
      = .ok g := by
  have hgg : g.grid.length = g.max_cell_value := hInv.1
  have hgr : ∀ r ∈ g.grid, r.length = g.max_cell_value := hInv.2.1
  have hlen := toFlatString_length hgg hgr
  refine ⟨hlen, ?_⟩
  have hws : ∀ c ∈ g.toFlatString, c.isWhitespace = false := by
    intro c hc
    obtain ⟨row, hrow, hcm⟩ := List.mem_flatMap.1 hc
    obtain ⟨o, -, rfl⟩ := List.mem_map.1 hcm
    exact int2char_not_whitespace o
  unfold CP.init_puzzle_from_str
  rw [rstrip_eq_self hws, clear_all_fresh, if_neg (not_ne_iff.2 (by
    rw [hlen]
    rfl))]
  obtain ⟨qf, hloop, hqfInv, hqfmax, hqfget⟩ :=
    initStrLoop_replay hInv hle
      (g.max_cell_value * g.max_cell_value) 0 (CP.fresh g.max_cell_value)
      (CP.fresh_inv g.max_cell_value) rfl (by omega)
      (fun a b => by rw [CP.fresh_get, if_neg (by omega)])
  rw [show CP.initStrLoop (CP.fresh g.max_cell_value) 0 g.toFlatString
    = CP.initStrLoop (CP.fresh g.max_cell_value) 0
        ((g.toFlatString).drop 0) from rfl, hloop]
  exact congrArg Except.ok (eq_of_inv_get_eq hqfInv hInv hqfmax hqfget)

/-- Witness for C6 on a reachable 3×3 grid with three placed values. -/
theorem C6_string_roundtrip_witness :
    ((applyOps (CP.fresh 3) [.setOp 0 0 1, .setOp 0 1 2,
        .setOp 2 2 1]).toFlatString).length
      = (applyOps (CP.fresh 3)
          [.setOp 0 0 1, .setOp 0 1 2, .setOp 2 2 1]).num_cells ∧
    CP.init_puzzle_from_str
      (CP.fresh (applyOps (CP.fresh 3)
        [.setOp 0 0 1, .setOp 0 1 2, .setOp 2 2 1]).max_cell_value)
      ((applyOps (CP.fresh 3)
        [.setOp 0 0 1, .setOp 0 1 2, .setOp 2 2 1]).toFlatString)
      = .ok (applyOps (CP.fresh 3) [.setOp 0 0 1, .setOp 0 1 2, .setOp 2 2 1])
      :=
  C6_string_roundtrip (by decide) (by decide)

/-- C1 counterexample: on a 2×2 grid holding 1 at (0,0) and 2 at (0,1), the
call `set(0, 1, 1)` raises a constraint violation, but when the exception
reaches the caller the cell (0,1) — which held 2 — has been left empty and
the empty-cell counter has grown: the grid is not rolled back. -/
theorem C1_set_failure_counterexample :
    (applyOps (CP.fresh 2) [.setOp 0 0 1, .setOp 0 1 2]).get 0 1 = some 2 ∧
    ((applyOps (CP.fresh 2) [.setOp 0 0 1, .setOp 0 1 2]).set 0 1 1).isOk
      = false ∧
    (endState ((applyOps (CP.fresh 2) [.setOp 0 0 1, .setOp 0 1 2]).set 0 1 1)
      ).get 0 1 = none ∧
    endState ((applyOps (CP.fresh 2) [.setOp 0 0 1, .setOp 0 1 2]).set 0 1 1)
      ≠ applyOps (CP.fresh 2) [.setOp 0 0 1, .setOp 0 1 2] := by
  decide

/-- C1 (amended): a failing `set` leaves the puzzle exactly as it was when
the value is out of range, and also when the target cell was empty; but when
the cell held a different non-empty value, the caller observes the state
with that cell cleared (the `clear` sub-step is not rolled back). -/
theorem C1_set_failure_states {p q : CP} {x y v : Nat}
    (herr : p.set x y v = .error q) :
    ((v < MIN_CELL_VALUE ∨ v > p.max_cell_value) → q = p) ∧
    (¬(v < MIN_CELL_VALUE ∨ v > p.max_cell_value) → p.get x y = none → q = p) ∧
    (¬(v < MIN_CELL_VALUE ∨ v > p.max_cell_value) →
      (p.get x y).isSome → q = p.clear x y) := by
  unfold CP.set at herr
  refine ⟨?_, ?_, ?_⟩
  · intro h1
    rw [if_pos h1] at herr
    exact (Except.error.inj herr).symm
  · intro h1 hemp
    rw [if_neg h1, if_neg (by
      rw [hemp]
      exact fun h => Option.noConfusion h)] at herr
    simp only [hemp, Option.isSome_none, Bool.false_eq_true, if_false] at herr
    split at herr
    · exact Except.noConfusion herr
    · exact (Except.error.inj herr).symm
  · intro h1 hsome
    rw [if_neg h1] at herr
    by_cases h2 : p.get x y = some v
    · rw [if_pos h2] at herr
      exact Except.noConfusion herr
    · rw [if_neg h2] at herr
      simp only [hsome, if_true] at herr
      split at herr
      · exact Except.noConfusion herr
      · exact (Except.error.inj herr).symm

/-- Witness for C1's amended theorem: the concrete failing call of the
counterexample ends in precisely the cleared state. -/
theorem C1_set_failure_states_witness :
    endState ((applyOps (CP.fresh 2) [.setOp 0 0 1, .setOp 0 1 2]).set 0 1 1)
      = (applyOps (CP.fresh 2) [.setOp 0 0 1, .setOp 0 1 2]).clear 0 1 := by
  have herr : (applyOps (CP.fresh 2) [.setOp 0 0 1, .setOp 0 1 2]).set 0 1 1
      = .error ((applyOps (CP.fresh 2) [.setOp 0 0 1, .setOp 0 1 2]).clear 0 1)
      := by
    have h := (C1_set_failure_states (p := applyOps (CP.fresh 2)
      [.setOp 0 0 1, .setOp 0 1 2]) (x := 0) (y := 1) (v := 1)
      (q := endState ((applyOps (CP.fresh 2)
        [.setOp 0 0 1, .setOp 0 1 2]).set 0 1 1)) rfl).2.2
      (by decide) (by decide)
    rw [show ((applyOps (CP.fresh 2) [.setOp 0 0 1, .setOp 0 1 2]).set 0 1 1)
      = .error (endState ((applyOps (CP.fresh 2)
        [.setOp 0 0 1, .setOp 0 1 2]).set 0 1 1)) from rfl, h]
  rw [herr]
  rfl

/-- C2: starting from a freshly constructed grid of legal size, after any
sequence of `set`/`clear` calls (including calls that raised), every row and
column candidate set equals the complete value set minus the values placed in
that region, and the maintained empty-cell counter equals the number of cells
holding the empty sentinel. -/
theorem C2_candidate_and_counter_invariant (n : Nat)
    (hlo : MIN_PUZZLE_SIZE ≤ n) (hhi : n ≤ MAX_PUZZLE_SIZE)
    (ops : List GridOp) :
    (∀ x < (applyOps (CP.fresh n) ops).max_cell_value,
      (applyOps (CP.fresh n) ops).rowCands x
        = completeSet (applyOps (CP.fresh n) ops).max_cell_value
          \ ((applyOps (CP.fresh n) ops).get_row_values x).toFinset) ∧
    (∀ y < (applyOps (CP.fresh n) ops).max_cell_value,
      (applyOps (CP.fresh n) ops).colCands y
        = completeSet (applyOps (CP.fresh n) ops).max_cell_value
          \ ((applyOps (CP.fresh n) ops).get_column_values y).toFinset) ∧
    (applyOps (CP.fresh n) ops).num_empty_cells
      = (countEmpty (applyOps (CP.fresh n) ops) : Int) := by
  obtain ⟨-, -, -, -, hcount, -, -, -, hrowC, hcolC⟩ :=
    CP.applyOps_inv ops (CP.fresh_inv n)
  exact ⟨hrowC, hcolC, hcount⟩

/-- Witness for C2 at a 2×2 grid after sets (one failing) and a clear. -/
theorem C2_candidate_and_counter_invariant_witness :
    (∀ x < (applyOps (CP.fresh 2)
        [.setOp 0 0 1, .setOp 0 1 2, .setOp 0 1 1, .clearOp 0 0]).max_cell_value,
      (applyOps (CP.fresh 2)
        [.setOp 0 0 1, .setOp 0 1 2, .setOp 0 1 1, .clearOp 0 0]).rowCands x
        = completeSet (applyOps (CP.fresh 2)
            [.setOp 0 0 1, .setOp 0 1 2, .setOp 0 1 1,
              .clearOp 0 0]).max_cell_value
          \ ((applyOps (CP.fresh 2)
              [.setOp 0 0 1, .setOp 0 1 2, .setOp 0 1 1,
                .clearOp 0 0]).get_row_values x).toFinset) ∧
    (∀ y < (applyOps (CP.fresh 2)
        [.setOp 0 0 1, .setOp 0 1 2, .setOp 0 1 1, .clearOp 0 0]).max_cell_value,
      (applyOps (CP.fresh 2)
        [.setOp 0 0 1, .setOp 0 1 2, .setOp 0 1 1, .clearOp 0 0]).colCands y
        = completeSet (applyOps (CP.fresh 2)
            [.setOp 0 0 1, .setOp 0 1 2, .setOp 0 1 1,
              .clearOp 0 0]).max_cell_value
          \ ((applyOps (CP.fresh 2)
              [.setOp 0 0 1, .setOp 0 1 2, .setOp 0 1 1,
                .clearOp 0 0]).get_column_values y).toFinset) ∧
    (applyOps (CP.fresh 2)
        [.setOp 0 0 1, .setOp 0 1 2, .setOp 0 1 1, .clearOp 0 0]).num_empty_cells
      = (countEmpty (applyOps (CP.fresh 2)
          [.setOp 0 0 1, .setOp 0 1 2, .setOp 0 1 1, .clearOp 0 0]) : Int) :=
  C2_candidate_and_counter_invariant 2 (by decide) (by decide)
    [.setOp 0 0 1, .setOp 0 1 2, .setOp 0 1 1, .clearOp 0 0]

/-- C9: clearing an already-empty cell is a no-op, and writing a cell's
current (in-range) value is a no-op returning normally: the whole state —
grid, empty counter, candidate sets — is returned unchanged. -/
theorem C9_clear_write_noop (p : CP) (x y v : Nat) :
    (p.get x y = none → p.clear x y = p) ∧
    (p.get x y = some v → MIN_CELL_VALUE ≤ v → v ≤ p.max_cell_value →
      p.set x y v = .ok p) := by
  refine ⟨fun h => CP.clear_of_empty h, fun hsome h1 h2 => ?_⟩
  unfold CP.set
  rw [if_neg (by
    unfold MIN_CELL_VALUE at h1 ⊢
    omega), if_pos hsome]

/-- C8 counterexample: in a reachable 4×4 state, the first cell the
`next_best_empty_cell` generator yields is (0,0), an empty cell with one
allowed value — but the empty cell (0,3) has zero allowed values, so the
first yield does not have minimum candidate-set cardinality. -/
theorem C8_first_yield_counterexample :
    (applyOps (CP.fresh 4) [.setOp 0 1 1, .setOp 0 2 2, .setOp 1 0 2,
        .setOp 1 3 3, .setOp 2 0 3, .setOp 2 3 4]).next_best_cells.head?
      = some (0, 0) ∧
    (applyOps (CP.fresh 4) [.setOp 0 1 1, .setOp 0 2 2, .setOp 1 0 2,
        .setOp 1 3 3, .setOp 2 0 3, .setOp 2 3 4]).get 0 0 = none ∧
    ((applyOps (CP.fresh 4) [.setOp 0 1 1, .setOp 0 2 2, .setOp 1 0 2,
        .setOp 1 3 3, .setOp 2 0 3, .setOp 2 3 4]).get_allowed_values 0 0).card
      = 1 ∧
    (applyOps (CP.fresh 4) [.setOp 0 1 1, .setOp 0 2 2, .setOp 1 0 2,
        .setOp 1 3 3, .setOp 2 0 3, .setOp 2 3 4]).get 0 3 = none ∧
    ((applyOps (CP.fresh 4) [.setOp 0 1 1, .setOp 0 2 2, .setOp 1 0 2,
        .setOp 1 3 3, .setOp 2 0 3, .setOp 2 3 4]).get_allowed_values 0 3).card
      = 0 := by
  decide

/-- C8 (amended): whenever every empty cell still has at least one allowed
value, the first cell yielded by the `next_best_empty_cell` generator is the
row-major-first empty cell of minimum allowed-value cardinality (formally:
the generator's first yield is `find?` over the row-major cell list for an
empty cell attaining the minimum); if some empty cell has zero allowed
values, the generator can instead yield an earlier cell with exactly one
allowed value, as the counterexample shows. -/
theorem C8_first_yield_is_mrv {p : CP} (hInv : p.Inv) {x0 y0 : Nat}
    (hx0 : x0 < p.max_cell_value) (hy0 : y0 < p.max_cell_value)
    (hemp : p.get x0 y0 = none)
    (hpos : 1 ≤ (p.get_allowed_values x0 y0).card)
    (hmin : ∀ x < p.max_cell_value, ∀ y < p.max_cell_value,
      p.get x y = none →
      (p.get_allowed_values x0 y0).card ≤ (p.get_allowed_values x y).card) :
    p.next_best_cells.head?
      = (allCells p.max_cell_value).find? (fun c =>
          p.get c.1 c.2 = none ∧ (p.get_allowed_values c.1 c.2).card
            = (p.get_allowed_values x0 y0).card) ∧
    p.next_best_cells.head?.isSome = true := by
  obtain ⟨hg, hr, hrl, hcl, hcount, hrange, hrowN, hcolN, hrowC, hcolC⟩ := hInv
  have hmn : (p.get_allowed_values x0 y0).card ≤ p.max_cell_value := by
    have hsub : p.get_allowed_values x0 y0 ⊆ completeSet p.max_cell_value := by
      rw [show p.get_allowed_values x0 y0 = p.rowCands x0 ∩ p.colCands y0
        from by unfold CP.get_allowed_values; rw [hemp], hrowC x0 hx0]
      exact Finset.Subset.trans Finset.inter_subset_left Finset.sdiff_subset
    have := Finset.card_le_card hsub
    unfold completeSet at this
    rw [Nat.card_Icc] at this
    omega
  have hmain : p.next_best_cells.head?
      = ((allCells p.max_cell_value).filter (fun c =>
          p.get c.1 c.2 = none ∧ (p.get_allowed_values c.1 c.2).card
            ≤ ((p.get_allowed_values x0 y0).card - 1) + 1)).head? := by
    unfold CP.next_best_cells
    rw [List.range_eq_range' p.max_cell_value]
    have := flatMap_range'_head (fun k =>
        (allCells p.max_cell_value).filter (fun c =>
          p.get c.1 c.2 = none ∧ (p.get_allowed_values c.1 c.2).card ≤ k + 1))
      ((p.get_allowed_values x0 y0).card - 1) 0 p.max_cell_value (by omega)
      (fun k hk => by
        rw [List.filter_eq_nil_iff]
        intro c hc hpred
        obtain ⟨hc1, hc2⟩ := mem_allCells.1 hc
        simp only [decide_eq_true_eq] at hpred
        obtain ⟨hcemp, hccard⟩ := hpred
        have := hmin c.1 hc1 c.2 hc2 hcemp
        omega)
      (by
        refine List.ne_nil_of_mem (a := (x0, y0)) ?_
        rw [List.mem_filter]
        refine ⟨mem_allCells.2 ⟨hx0, hy0⟩, ?_⟩
        simp only [decide_eq_true_eq]
        exact ⟨hemp, by omega⟩)
    simpa using this
  have hfind : ((allCells p.max_cell_value).filter (fun c =>
      p.get c.1 c.2 = none ∧ (p.get_allowed_values c.1 c.2).card
        ≤ ((p.get_allowed_values x0 y0).card - 1) + 1)).head?
      = (allCells p.max_cell_value).find? (fun c =>
          p.get c.1 c.2 = none ∧ (p.get_allowed_values c.1 c.2).card
            = (p.get_allowed_values x0 y0).card) := by
    rw [List.filter_head?]
    refine find?_congr' (fun c hc => ?_)
    obtain ⟨hc1, hc2⟩ := mem_allCells.1 hc
    refine decide_eq_decide.2 ?_
    constructor
    · rintro ⟨hcemp, hccard⟩
      have := hmin c.1 hc1 c.2 hc2 hcemp
      exact ⟨hcemp, by omega⟩
    · rintro ⟨hcemp, hccard⟩
      exact ⟨hcemp, by omega⟩
  refine ⟨hmain.trans hfind, ?_⟩
  rw [hmain, List.head?_isSome]
  refine List.ne_nil_of_mem (a := (x0, y0)) ?_
  rw [List.mem_filter]
  refine ⟨mem_allCells.2 ⟨hx0, hy0⟩, ?_⟩
  simp only [decide_eq_true_eq]
  exact ⟨hemp, by omega⟩

/-- Witness for C8's amended theorem: in the reachable 3×3 state below the
minimum-candidate empty cell is (1,1) with a single candidate, and the
generator yields it first. -/
theorem C8_first_yield_is_mrv_witness :
    (applyOps (CP.fresh 3) [.setOp 0 0 1, .setOp 0 1 2, .setOp 0 2 3,
        .setOp 1 0 3]).next_best_cells.head?
      = (allCells (applyOps (CP.fresh 3) [.setOp 0 0 1, .setOp 0 1 2,
          .setOp 0 2 3, .setOp 1 0 3]).max_cell_value).find? (fun c =>
          (applyOps (CP.fresh 3) [.setOp 0 0 1, .setOp 0 1 2, .setOp 0 2 3,
            .setOp 1 0 3]).get c.1 c.2 = none ∧
          ((applyOps (CP.fresh 3) [.setOp 0 0 1, .setOp 0 1 2, .setOp 0 2 3,
            .setOp 1 0 3]).get_allowed_values c.1 c.2).card
            = ((applyOps (CP.fresh 3) [.setOp 0 0 1, .setOp 0 1 2,
                .setOp 0 2 3, .setOp 1 0 3]).get_allowed_values 1 1).card) ∧
    (applyOps (CP.fresh 3) [.setOp 0 0 1, .setOp 0 1 2, .setOp 0 2 3,
        .setOp 1 0 3]).next_best_cells.head?.isSome = true :=
  C8_first_yield_is_mrv (by decide) (by decide) (by decide) (by decide)
    (by decide) (by decide)

/-- Witness for C9 on a 2×2 grid holding 1 at (0,0). -/
theorem C9_clear_write_noop_witness :
    ((applyOps (CP.fresh 2) [.setOp 0 0 1]).clear 1 1
      = applyOps (CP.fresh 2) [.setOp 0 0 1]) ∧
    ((applyOps (CP.fresh 2) [.setOp 0 0 1]).set 0 0 1
      = .ok (applyOps (CP.fresh 2) [.setOp 0 0 1])) :=
  ⟨(C9_clear_write_noop (applyOps (CP.fresh 2) [.setOp 0 0 1]) 1 1 1).1
      (by decide),
   (C9_clear_write_noop (applyOps (CP.fresh 2) [.setOp 0 0 1]) 0 0 1).2
      (by decide) (by decide) (by decide)⟩

/-- C5: on any consistent Sudoku state the backtracking solver's `solve`
returns normally (never raises, never exhausts its recursion: the result is
`.ok`, not `.fail`), and the boolean it returns is `true` exactly when the
final state satisfies `is_solved`; when it returns `false` the puzzle is
left in its initial (unsolved) state. -/
theorem C5_backtracking_solver_correct {p : SP} (hInv : p.Inv) :
    ∃ (b : Bool) (p' : SP), BacktrackingSolver.solve p = .ok b p' ∧
      p'.Inv ∧ (b = true ↔ p'.is_solved = true) ∧ (b = false → p' = p) := by
  unfold BacktrackingSolver.solve
  by_cases hs : p.is_solved = true
  · rw [if_pos hs]
    exact ⟨true, p, rfl, hInv, ⟨fun _ => hs, fun _ => rfl⟩,
      fun h => Bool.noConfusion h⟩
  · rw [if_neg hs]
    obtain ⟨b, p', heq, hInv', htrue, hfalse⟩ :=
      solveBT_spec (countEmptyG p.grid + 1) p hInv (by omega)
    refine ⟨b, p', heq, hInv', ⟨htrue, ?_⟩, hfalse⟩
    intro hsol
    cases b with
    | true => rfl
    | false =>
      rw [hfalse rfl] at hsol
      exact absurd hsol hs

/-- Witness for C5: the solver run on an empty 4×4 Sudoku. -/
theorem C5_backtracking_solver_correct_witness :
    SP.Inv (SP.fresh 4) ∧
    (∃ (b : Bool) (p' : SP),
      BacktrackingSolver.solve (SP.fresh 4) = .ok b p' ∧
      p'.Inv ∧ (b = true ↔ p'.is_solved = true) ∧
      (b = false → p' = SP.fresh 4)) :=
  ⟨by decide, C5_backtracking_solver_correct (by decide)⟩

/-- C10: for every grid size in the supported range, `SudokuPuzzle.__init__`
succeeds exactly for the perfect squares 1, 4, 9, 16, 25; for any non-square
size it raises the squareness `ValueError` before any puzzle state is
constructed (the error, not a state, is returned). -/
theorem C10_sudoku_grid_size_square_check :
    ∀ n : Nat, n ≤ MAX_PUZZLE_SIZE →
      (((SP.mk? n).toOption).isSome = true ↔
        (n = 1 ∨ n = 4 ∨ n = 9 ∨ n = 16 ∨ n = 25)) ∧
      (floorSqrt n * floorSqrt n ≠ n →
        exceptErr? (SP.mk? n)
          = some ("grid_size is not a square number")) := by
  decide

/-- Witness for C10 at the in-range non-square size 8. -/
theorem C10_sudoku_grid_size_square_check_witness :
    8 ≤ MAX_PUZZLE_SIZE ∧
    ((((SP.mk? 8).toOption).isSome = true ↔
        (8 = 1 ∨ 8 = 4 ∨ 8 = 9 ∨ 8 = 16 ∨ 8 = 25)) ∧
      (floorSqrt 8 * floorSqrt 8 ≠ 8 →
        exceptErr? (SP.mk? 8)
          = some ("grid_size is not a square number"))) :=
  ⟨by decide, C10_sudoku_grid_size_square_check 8 (by decide)⟩

/-- C3: from a valid state, writing a value drawn from `get_allowed_values`
never leaves validity broken: whether the write returns normally or raises,
the state the caller observes still satisfies the validity check.  For
`ConstraintPuzzle` this holds on every consistent state; for `MathDoku` it
additionally needs the constructor-enforced cage well-formedness (`=` cages
own exactly one cell; a non-`+` cage owns at least one cell, since
`_generate_cage_options` cannot even build an empty `-`/`*`//` cage), and
holds because a failing cage re-check rolls the write back to the exact
prior state. -/
theorem C3_allowed_write_keeps_valid :
    (∀ (p : CP), p.Inv → ∀ x y v : Nat, v ∈ p.get_allowed_values x y →
      (endState (p.set x y v)).is_puzzle_valid = true) ∧
    (∀ (m : MD), m.base.Inv →
      (∀ c ∈ m.cages, c.2.1 = CageOp.eq → c.2.2 = 1) →
      (∀ c ∈ m.cages, c.2.1 ≠ CageOp.add → 1 ≤ c.2.2) →
      m.is_puzzle_valid = some true →
      ∀ x y v : Nat, x < m.base.max_cell_value →
        y < m.base.max_cell_value → v ∈ m.get_allowed_values x y →
        (endState (m.set x y v)).is_puzzle_valid = some true) := by
  constructor
  · intro p hInv x y v _
    exact CP.is_puzzle_valid_of_inv (CP.set_endState_inv hInv x y v)
  · intro m hInv heqWF hne0 hvalid x y v hx hy hall
    have hInv' := hInv
    obtain ⟨hg, hr, hrl, hcl, hcount, hrange, hrowN, hcolN, hrowC, hcolC⟩ :=
      hInv'
    cases hget : m.base.get x y with
    | some w =>
      have hveq : v = w := by
        unfold MD.get_allowed_values at hall
        rw [hget] at hall
        simpa using hall
      subst hveq
      have hwC : v ∈ completeSet m.base.max_cell_value :=
        hrange x hx y hy v hget
      have h1 : ¬(v < MIN_CELL_VALUE ∨ v > m.base.max_cell_value) := by
        have := Finset.mem_Icc.1 hwC
        unfold MIN_CELL_VALUE
        omega
      have hss : m.superSet x y v = .ok m := by
        unfold MD.superSet
        rw [if_neg h1, if_pos hget]
      simp only [MD.set, hss, hvalid, endState]
    | none =>
      have hallI : v ∈ (m.base.rowCands x ∩ m.base.colCands y)
          ∩ m.cage_flat ((m.cells_2_cages.getD x []).getD y 0) := by
        unfold MD.get_allowed_values at hall
        rw [hget] at hall
        exact hall
      have hvrc : v ∈ m.base.rowCands x ∩ m.base.colCands y :=
        (Finset.mem_inter.1 hallI).1
      have hvrow : v ∈ m.base.rowCands x := (Finset.mem_inter.1 hvrc).1
      have hvC : v ∈ completeSet m.base.max_cell_value := by
        have := hrowC x hx ▸ hvrow
        exact (Finset.mem_sdiff.1 this).1
      have h1 : ¬(v < MIN_CELL_VALUE ∨ v > m.base.max_cell_value) := by
        have := Finset.mem_Icc.1 hvC
        unfold MIN_CELL_VALUE
        omega
      have h2 : ¬(m.base.get x y = some v) := by
        rw [hget]
        intro hc
        exact Option.noConfusion hc
      have hgate : m.is_allowed_value x y v = true := by
        unfold MD.is_allowed_value
        rw [if_neg (by
          rw [hget]
          rintro ⟨-, hcontr⟩
          exact Option.noConfusion hcontr)]
        simpa using hall
      have hss : m.superSet x y v
          = .ok { m with base := m.base.writeState x y v } := by
        unfold MD.superSet
        rw [if_neg h1, if_neg h2]
        simp only [hget, Option.isSome_none, Bool.false_eq_true, if_false,
          hgate, if_true]
      have hxg : x < m.base.grid.length := by omega
      have hyg : y < (m.base.grid.getD x []).length := by
        have := hr _ (List.get?_mem (get?_eq_getD [] hxg))
        omega
      obtain ⟨hInvW, hgetW, hcntW, hresW⟩ := CP.write_ok hInv hget hvrc
      have hpos2 : ∀ a,
          a < ({ m with base := m.base.writeState x y v } : MD).base.grid.length →
          ∀ b,
          b < (({ m with base := m.base.writeState x y v } : MD).base.grid.getD
            a []).length →
          ({ m with base := m.base.writeState x y v } : MD).base.get a b
            ≠ some 0 := by
        intro a ha b hb hc
        by_cases hab : x = a ∧ y = b
        · obtain ⟨rfl, rfl⟩ := hab
          have hcv : ({ m with base := m.base.writeState x y v } : MD).base.get
              x y = some v := hgetW
          rw [hcv] at hc
          have := Option.some.inj hc
          have := Finset.mem_Icc.1 hvC
          omega
        · rw [not_and_or] at hab
          have hgg : ({ m with base := m.base.writeState x y v } : MD).base.get
              a b = m.base.get a b := CP.getCell_setCell_ne (some v) hab
          rw [hgg] at hc
          obtain ⟨hab1, hab2⟩ := CP.get_some_bounds hc
          have han : a < m.base.max_cell_value := by omega
          have hbn : b < m.base.max_cell_value := by
            have := hr _ (List.get?_mem (get?_eq_getD [] hab1))
            omega
          have h0C := hrange a han b hbn 0 hc
          have := Finset.mem_Icc.1 h0C
          omega
      have hnnone : ({ m with base := m.base.writeState x y v }
          : MD).is_puzzle_valid ≠ none := by
        refine MD.valid_ne_none (MD.cagesValid_ne_none _ 0 ?_)
        intro j hj
        refine MD.cageCheck_ne_none hpos2 ?_ ?_
        · exact heqWF _ (List.get_mem _ _ _)
        · exact hne0 _ (List.get_mem _ _ _)
      cases hv2 : ({ m with base := m.base.writeState x y v }
          : MD).is_puzzle_valid with
      | none => exact absurd hv2 hnnone
      | some bb =>
        cases bb with
        | true =>
          simp only [MD.set, hss, hv2, endState]
        | false =>
          have hroll : ({ { m with base := m.base.writeState x y v } with
              base := ({ m with base := m.base.writeState x y v }
                : MD).base.clear x y } : MD) = m := by
            show ({ m with base := (m.base.writeState x y v).clear x y }
              : MD) = m
            rw [hresW]
          simp only [MD.set, hss, hv2, hget, endState]
          rw [hroll]
          exact hvalid

/-- Witness for C3: a fresh 2×2 `ConstraintPuzzle`, and the concrete 2×2
`MathDoku` `md0`, each accepting an allowed value. -/
theorem C3_allowed_write_keeps_valid_witness :
    ((CP.fresh 2).Inv ∧ 1 ∈ (CP.fresh 2).get_allowed_values 0 0 ∧
      (endState ((CP.fresh 2).set 0 0 1)).is_puzzle_valid = true) ∧
    (md0.base.Inv ∧ md0.is_puzzle_valid = some true ∧
      1 ∈ md0.get_allowed_values 0 1 ∧
      (endState (md0.set 0 1 1)).is_puzzle_valid = some true) :=
  ⟨⟨by decide, by decide,
      C3_allowed_write_keeps_valid.1 (CP.fresh 2) (by decide) 0 0 1
        (by decide)⟩,
   ⟨by decide, by decide, by decide,
      C3_allowed_write_keeps_valid.2 md0 (by decide) (by decide) (by decide)
        (by decide) 0 1 1 (by decide) (by decide) (by decide)⟩⟩

/-- C7: on a MathDoku state whose rows and columns check out (and whose
cages are constructor-well-formed and grid values positive),
`is_puzzle_valid` returns `False` exactly when some cage with all of its
cells filled evaluates — descending-sorted, operator applied left-to-right —
to a value different from its target; cages with an empty cell are never
checked, so they cannot make the state invalid. -/
theorem C7_mathdoku_validity_characterization {m : MD}
    (hpos : ∀ x, x < m.base.grid.length →
      ∀ y, y < (m.base.grid.getD x []).length → m.base.get x y ≠ some 0)
    (heqWF : ∀ c ∈ m.cages, c.2.1 = CageOp.eq → c.2.2 = 1)
    (hne0 : ∀ c ∈ m.cages, c.2.1 ≠ CageOp.add → 1 ≤ c.2.2)
    (hbase : m.base.is_puzzle_valid = true) :
    m.is_puzzle_valid = some false ↔
      ∃ j, ∃ hj : j < m.cages.length,
        (m.cageVals j).length = (m.cages.get ⟨j, hj⟩).2.2 ∧
        evalOp (m.cages.get ⟨j, hj⟩).2.1
            ((sortDesc (m.cageVals j)).map (fun w => Int.ofNat w))
          ≠ some (m.cages.get ⟨j, hj⟩).1 := by
  have hnn : ∀ j (hj : j < m.cages.length),
      m.cageCheck j (m.cages.get ⟨j, hj⟩) ≠ none := fun j hj =>
    MD.cageCheck_ne_none hpos (heqWF _ (List.get_mem _ _ _))
      (hne0 _ (List.get_mem _ _ _))
  have hnn0 : ∀ j (hj : j < m.cages.length),
      m.cageCheck (0 + j) (m.cages.get ⟨j, hj⟩) ≠ none := by
    intro j hj
    rw [Nat.zero_add]
    exact hnn j hj
  unfold MD.is_puzzle_valid
  rw [if_pos hbase, MD.cagesValid_false_iff m.cages 0 hnn0]
  constructor
  · rintro ⟨j, hj, hcc⟩
    rw [Nat.zero_add] at hcc
    exact ⟨j, hj, (MD.cageCheck_false_iff (hnn j hj)).1 hcc⟩
  · rintro ⟨j, hj, hcc⟩
    refine ⟨j, hj, ?_⟩
    rw [Nat.zero_add]
    exact (MD.cageCheck_false_iff (hnn j hj)).2 hcc

/-- Witness for C7: the concrete 2×2 MathDoku `md1`, whose second cage is
complete and evaluates to 3 against a target of 4. -/
theorem C7_mathdoku_validity_characterization_witness :
    md1.is_puzzle_valid = some false ∧
    (md1.is_puzzle_valid = some false ↔
      ∃ j, ∃ hj : j < md1.cages.length,
        (md1.cageVals j).length = (md1.cages.get ⟨j, hj⟩).2.2 ∧
        evalOp (md1.cages.get ⟨j, hj⟩).2.1
            ((sortDesc (md1.cageVals j)).map (fun w => Int.ofNat w))
          ≠ some (md1.cages.get ⟨j, hj⟩).1) :=
  ⟨by decide,
   C7_mathdoku_validity_characterization (by decide) (by decide) (by decide)
     (by decide)⟩

/-- C4: on every consistent state, `get_allowed_values` of a non-empty cell
is the singleton of its value, and of an empty cell is the intersection of
the candidate sets of the regions containing it — row and column (each being
the complete set minus the values placed in the region), plus the box for
Sudoku, plus the flattened cage-possibility values for MathDoku. -/
theorem C4_allowed_values_are_region_intersections :
    (∀ (p : CP), p.Inv → ∀ x, x < p.max_cell_value →
      ∀ y, y < p.max_cell_value →
      (∀ w, p.get x y = some w → p.get_allowed_values x y = {w}) ∧
      (p.get x y = none → p.get_allowed_values x y
        = (completeSet p.max_cell_value \ (p.get_row_values x).toFinset)
          ∩ (completeSet p.max_cell_value
              \ (p.get_column_values y).toFinset))) ∧
    (∀ (p : SP), p.Inv → ∀ x, x < p.max_cell_value →
      ∀ y, y < p.max_cell_value →
      (∀ w, p.get x y = some w → p.get_allowed_values x y = {w}) ∧
      (p.get x y = none → p.get_allowed_values x y
        = ((completeSet p.max_cell_value \ (p.get_row_values x).toFinset)
          ∩ (completeSet p.max_cell_value
              \ (p.get_column_values y).toFinset))
          ∩ (completeSet p.max_cell_value
              \ (p.get_box_values (p.box_xy_to_num x y)).toFinset))) ∧
    (∀ (m : MD), m.base.Inv → ∀ x, x < m.base.max_cell_value →
      ∀ y, y < m.base.max_cell_value →
      (∀ w, m.get x y = some w → m.get_allowed_values x y = {w}) ∧
      (m.get x y = none → m.get_allowed_values x y
        = ((completeSet m.base.max_cell_value
              \ (m.base.get_row_values x).toFinset)
          ∩ (completeSet m.base.max_cell_value
              \ (m.base.get_column_values y).toFinset))
          ∩ m.cage_flat ((m.cells_2_cages.getD x []).getD y 0))) := by
  refine ⟨?_, ?_, ?_⟩
  · intro p hInv x hx y hy
    obtain ⟨hg, hr, hrl, hcl, hcount, hrange, hrowN, hcolN, hrowC, hcolC⟩ :=
      hInv
    constructor
    · intro w hw
      unfold CP.get_allowed_values
      rw [hw]
    · intro hemp
      unfold CP.get_allowed_values
      rw [hemp, hrowC x hx, hcolC y hy]
  · intro p hInv x hx y hy
    obtain ⟨hbs, hg, hr, hrl, hcl, hbl, hcount, hrange, hrowN, hcolN, hboxN,
      hrowC, hcolC, hboxC⟩ := hInv
    have hbs0 : 0 < p.box_size := by
      rcases Nat.eq_zero_or_pos p.box_size with h0 | h0
      · rw [h0] at hbs
        omega
      · exact h0
    have hbnum : p.box_xy_to_num x y < p.max_cell_value :=
      SP.boxnum_lt_n hbs hbs0 hx hy
    constructor
    · intro w hw
      unfold SP.get_allowed_values
      rw [hw]
    · intro hemp
      unfold SP.get_allowed_values
      rw [hemp, hrowC x hx, hcolC y hy, hboxC _ hbnum]
  · intro m hInv x hx y hy
    obtain ⟨hg, hr, hrl, hcl, hcount, hrange, hrowN, hcolN, hrowC, hcolC⟩ :=
      hInv
    constructor
    · intro w hw
      have hw' : m.base.get x y = some w := hw
      unfold MD.get_allowed_values
      rw [hw']
    · intro hemp
      have hemp' : m.base.get x y = none := hemp
      unfold MD.get_allowed_values
      rw [hemp', hrowC x hx, hcolC y hy]

/-- Witness for C4 on concrete empty cells of a fresh 2×2 grid, a fresh 4×4
Sudoku, and the MathDoku `md0`. -/
theorem C4_allowed_values_are_region_intersections_witness :
    ((CP.fresh 2).get_allowed_values 0 0
      = (completeSet 2 \ ((CP.fresh 2).get_row_values 0).toFinset)
        ∩ (completeSet 2 \ ((CP.fresh 2).get_column_values 0).toFinset)) ∧
    ((SP.fresh 4).get_allowed_values 0 0
      = ((completeSet 4 \ ((SP.fresh 4).get_row_values 0).toFinset)
        ∩ (completeSet 4 \ ((SP.fresh 4).get_column_values 0).toFinset))
        ∩ (completeSet 4 \ ((SP.fresh 4).get_box_values
            ((SP.fresh 4).box_xy_to_num 0 0)).toFinset)) ∧
    (md0.get_allowed_values 0 1
      = ((completeSet 2 \ (md0.base.get_row_values 0).toFinset)
        ∩ (completeSet 2 \ (md0.base.get_column_values 1).toFinset))
        ∩ md0.cage_flat ((md0.cells_2_cages.getD 0 []).getD 1 0)) :=
  ⟨(C4_allowed_values_are_region_intersections.1 (CP.fresh 2) (by decide)
      0 (by decide) 0 (by decide)).2 (by decide),
   (C4_allowed_values_are_region_intersections.2.1 (SP.fresh 4) (by decide)
      0 (by decide) 0 (by decide)).2 (by decide),
   (C4_allowed_values_are_region_intersections.2.2 md0 (by decide)
      0 (by decide) 1 (by decide)).2 (by decide)⟩

end PuzzleSolvers
